import Mathlib

/-!
Verification of the msi scraper's core logic (`msi_v2_airtable_replace.py`):
price parsing, description extraction, and the Airtable sync engine.
All text is modelled as `List Char`.  Python floats are modelled by the
exact-decimal type `Dec` below: every number this script manipulates is a
decimal produced by `float()` on a digit string, so an integer mantissa with
a base-10 exponent represents it exactly.
-/

namespace Msi

/-! ### Character classes and basic text utilities -/

/-- No-break space U+00A0, one of the `THIN_SPACES`. -/
def nbspC : Char := Char.ofNat 0xA0

/-- Narrow no-break space U+202F, one of the `THIN_SPACES`. -/
def nnbspC : Char := Char.ofNat 0x202F

/-- Thin space U+2009, one of the `THIN_SPACES`. -/
def thinC : Char := Char.ofNat 0x2009

def isThinSpace (c : Char) : Bool := c = nbspC || c = nnbspC || c = thinC

/-- Whitespace as recognised by Python's `str.strip` and `\s` (ASCII part
plus the no-break/thin spaces that occur in this scraper's data). -/
def isPyWs (c : Char) : Bool :=
  c = ' ' || c = '\t' || c = '\n' || c = '\r' ||
  c = Char.ofNat 0x0B || c = Char.ofNat 0x0C || isThinSpace c

def isDigitC (c : Char) : Bool := '0' ≤ c && c ≤ '9'

/-- Word characters for `\b` boundaries. Python's `\w` is unicode-aware; the
scraper's texts are German, so the ASCII alphanumerics are extended with the
umlauts and accented letters that appear on the site. -/
def isWordC (c : Char) : Bool :=
  c.isAlphanum || c = '_' ||
  c = 'ä' || c = 'ö' || c = 'ü' || c = 'Ä' || c = 'Ö' || c = 'Ü' || c = 'ß' ||
  c = 'é' || c = 'É'

/-- Python `str.strip()`. -/
def pyStrip (l : List Char) : List Char :=
  ((l.dropWhile isPyWs).reverse.dropWhile isPyWs).reverse

def wsHead : List Char → Bool
  | [] => false
  | d :: _ => isPyWs d

/-- Fuelled worker for `collapseWs`; the fuel only serves to make the
recursion structural, `fuel ≥ l.length` makes it total. -/
def collapseWsF : ℕ → List Char → List Char
  | 0, l => l
  | _ + 1, [] => []
  | fuel + 1, c :: rest =>
    if isPyWs c && wsHead rest then
      ' ' :: collapseWsF fuel (rest.dropWhile isPyWs)
    else
      c :: collapseWsF fuel rest

/-- Collapse every maximal run of two or more whitespace characters into a
single space, as `re.sub(r"\s{2,}", " ", s)` does.  A lone whitespace
character (e.g. a single newline) is left unchanged. -/
def collapseWs (l : List Char) : List Char := collapseWsF l.length l

/-- The `_norm` helper: `re.sub(r"\s{2,}", " ", s.strip())`. -/
def pynorm (l : List Char) : List Char := collapseWs (pyStrip l)

def pyLowerL (l : List Char) : List Char := l.map Char.toLower

/-- Python's substring test `p in l` on lists of characters. -/
def containsSub (l p : List Char) : Bool :=
  (List.range (l.length + 1)).any (fun i => p.isPrefixOf (l.drop i))

/-! ### Exact decimals (the values Python `float` takes in this program) -/

/-- Exact decimal `mant / 10 ^ exp`, kept canonical (`exp = 0` or the
mantissa is not divisible by 10), so that value equality — which is what
Python's `==`/`!=` on these floats decides — coincides with structural
equality. -/
structure Dec where
  mant : ℤ
  exp : ℕ
deriving DecidableEq, Repr

def canonDec : ℤ → ℕ → Dec
  | m, 0 => ⟨m, 0⟩
  | m, e + 1 => if m % 10 = 0 then canonDec (m / 10) e else ⟨m, e + 1⟩

def Dec.ofInt (m : ℤ) : Dec := ⟨m, 0⟩

/-- Rational value of a decimal (used only in statements, never in the
executable pipeline). -/
def Dec.val (d : Dec) : ℚ := (d.mant : ℚ) / (10 : ℚ) ^ d.exp

/-- Value comparison `a < b` on decimals. -/
def Dec.ltD (a b : Dec) : Bool := a.mant * 10 ^ b.exp < b.mant * 10 ^ a.exp

/-- Value comparison `a ≤ b` on decimals. -/
def Dec.leD (a b : Dec) : Bool := a.mant * 10 ^ b.exp ≤ b.mant * 10 ^ a.exp

def natVal (l : List Char) : ℕ :=
  l.foldl (fun n c => 10 * n + (c.toNat - 48)) 0

/-- Python's `float()` on the decimal strings this program produces: optional
surrounding whitespace, optional sign, digits with at most one decimal point.
(Exponents, `inf`/`nan` and `_` separators never occur here and are not
modelled: on such inputs this returns `none` while Python would not, but no
string the scraper feeds to `float` has those shapes.) -/
def parseFloatD (cs : List Char) : Option Dec :=
  let cs1 := pyStrip cs
  let neg : Bool := cs1.head? = some '-'
  let cs2 := if cs1.head? = some '-' ∨ cs1.head? = some '+' then cs1.drop 1 else cs1
  let d1 := cs2.takeWhile isDigitC
  let rest := cs2.drop d1.length
  if rest = [] then
    if d1 = [] then none
    else some (canonDec (if neg then -(natVal d1 : ℤ) else (natVal d1 : ℤ)) 0)
  else if rest.head? = some '.' then
    let rest2 := rest.drop 1
    let d2 := rest2.takeWhile isDigitC
    if rest2.drop d2.length ≠ [] then none
    else if d1 = [] ∧ d2 = [] then none
    else
      some (canonDec
        (if neg then -(natVal (d1 ++ d2) : ℤ) else (natVal (d1 ++ d2) : ℤ)) d2.length)
  else none

/-- Substring after the last period: `s.rsplit(".", 1)[-1]`. -/
def lastAfterDot (s : List Char) : List Char :=
  ((s.reverse).takeWhile (fun c => c ≠ '.')).reverse

/-- The `_normalize_numstring` helper. -/
def normalize_numstring (s : List Char) : List Char :=
  if s = [] then [] else
  let s1 := pyStrip s
  let s2 := s1.filter (fun c => !isThinSpace c)
  if s2.contains ',' && s2.contains '.' then
    (s2.filter (fun c => c ≠ '.')).map (fun c => if c = ',' then '.' else c)
  else if s2.contains ',' then
    s2.map (fun c => if c = ',' then '.' else c)
  else if s2.contains '.' then
    let last := lastAfterDot s2
    if last ≠ [] && last.all isDigitC && (last.length = 3 || last.length = 6) then
      s2.filter (fun c => c ≠ '.')
    else s2
  else s2

/-! ### Display formatting (`f"{val:,.0f} €".replace(",", ".")`) -/

/-- Round a decimal half-to-even to an integer, as Python's `:,.0f`
formatting does on these (exactly representable) values. -/
def Dec.rnd (d : Dec) : ℤ :=
  let p : ℤ := 10 ^ d.exp
  let q := d.mant.fdiv p
  let r := d.mant.fmod p
  if 2 * r < p then q else if p < 2 * r then q + 1
  else if q % 2 = 0 then q else q + 1

/-- Insert a period after every third digit, working on a reversed digit
list. -/
def group3rev : List Char → List Char
  | [] => []
  | [a] => [a]
  | [a, b] => [a, b]
  | [a, b, c] => [a, b, c]
  | a :: b :: c :: rest => a :: b :: c :: '.' :: group3rev rest

def groupDigits (m : ℕ) : List Char :=
  (group3rev ((Nat.toDigits 10 m).reverse)).reverse

/-- Locale-style euro display string: thousands groups separated by periods,
no decimals, then a space and the euro sign. -/
def formatEuro (d : Dec) : List Char :=
  let n := d.rnd
  (if n < 0 then '-' :: groupDigits n.natAbs else groupDigits n.toNat) ++ [' ', '€']

/-! ### Regex engines

`RE_EUR_NUMBER`, `RE_EUR_ANY` and `RE_PRICE_LINE` are executed for their
match text, so they are implemented with Python's leftmost-first, greedy,
backtracking semantics.  `RE_PHONE` and `RE_EMAIL` are only ever used as
booleans (`if RE.search(t)`), and a match exists iff some position satisfies
the pattern, so they are implemented as bounded existentials. -/

def wordAt (cs : List Char) (i : ℕ) : Bool :=
  match cs.get? i with
  | some c => isWordC c
  | none => false

/-- Word boundary `\b` before position `i`. -/
def boundaryAt (cs : List Char) (i : ℕ) : Bool :=
  (if i = 0 then false else wordAt cs (i - 1)) != wordAt cs i

/-- Length of the digit run starting at position `i`. -/
def digitsRunAt (cs : List Char) (i : ℕ) : ℕ :=
  ((cs.drop i).takeWhile isDigitC).length

def wsRunAt (cs : List Char) (i : ℕ) : ℕ :=
  ((cs.drop i).takeWhile isPyWs).length

/-- Separators of the thousands groups: `[.   ]`. -/
def isSepC (c : Char) : Bool := c = '.' || isThinSpace c

def sepAt (cs : List Char) (i : ℕ) : Bool :=
  match cs.get? i with
  | some c => isSepC c
  | none => false

def charAtIs (cs : List Char) (i : ℕ) (c : Char) : Bool :=
  match cs.get? i with
  | some d => d = c
  | none => false

/-- Maximal number of `(?:[.   ]\d{3})` groups starting at
`j` (fuelled to keep the recursion structural; callers pass ample fuel). -/
def maxGroups (cs : List Char) : ℕ → ℕ → ℕ
  | _, 0 => 0
  | j, fuel + 1 =>
    if sepAt cs j && decide (3 ≤ digitsRunAt cs (j + 1)) then
      1 + maxGroups cs (j + 4) fuel
    else 0

/-- The optional `(?:,\d{2})?` tail of `RE_EUR_NUMBER` followed by the final
`\b`: the comma variant is tried first (greedy), then the empty one. -/
def numTailAt (cs : List Char) (e : ℕ) : Option ℕ :=
  if charAtIs cs e ',' && decide (2 ≤ digitsRunAt cs (e + 1)) && boundaryAt cs (e + 3) then
    some (e + 3)
  else if boundaryAt cs e then some e
  else none

/-- Try to match `RE_EUR_NUMBER` at position `i`; returns the end position.
Greedy with backtracking: 3, 2 then 1 leading digits; the maximal group
count down to zero; comma tail before empty tail. -/
def matchNumAt (cs : List Char) (i : ℕ) : Option ℕ :=
  if !boundaryAt cs i then none else
  [3, 2, 1].findSome? (fun d =>
    if decide (d ≤ digitsRunAt cs i) then
      let j := i + d
      let g := maxGroups cs j (cs.length + 1)
      ((List.range (g + 1)).map (fun x => g - x)).findSome? (fun k =>
        numTailAt cs (j + 4 * k))
    else none)

/-- `RE_EUR_NUMBER.search`: leftmost match text. -/
def searchEurNumber (cs : List Char) : Option (List Char) :=
  (List.range (cs.length + 1)).findSome? (fun i =>
    (matchNumAt cs i).map (fun e => (cs.drop i).take (e - i)))

/-- Try to match `RE_EUR_ANY` at position `i`; returns the end position.
Without a final `\b` the greedy choices never fail, so no backtracking. -/
def matchAnyAt (cs : List Char) (i : ℕ) : Option ℕ :=
  if !boundaryAt cs i then none else
  let dr := digitsRunAt cs i
  if dr = 0 then none else
  let j := i + min 3 dr
  let e1 := j + 4 * maxGroups cs j (cs.length + 1)
  let e2 := if charAtIs cs e1 ',' && decide (2 ≤ digitsRunAt cs (e1 + 1)) then e1 + 3 else e1
  let e3 := e2 + wsRunAt cs e2
  some (if charAtIs cs e3 '€' || charAtIs cs e3 'E' || charAtIs cs e3 'U' || charAtIs cs e3 'R'
        then e3 + 1 else e3)

def findAnyFrom (cs : List Char) (p : ℕ) : Option (ℕ × ℕ) :=
  (List.range' p (cs.length + 1 - p)).findSome? (fun i =>
    (matchAnyAt cs i).map (fun e => (i, e)))

def finditerAnyF (cs : List Char) : ℕ → ℕ → List (List Char)
  | _, 0 => []
  | p, fuel + 1 =>
    match findAnyFrom cs p with
    | none => []
    | some (i, e) => (cs.drop i).take (e - i) :: finditerAnyF cs (max e (i + 1)) fuel

/-- `RE_EUR_ANY.finditer`: the non-overlapping match texts, left to right. -/
def finditerAny (cs : List Char) : List (List Char) :=
  finditerAnyF cs 0 (cs.length + 1)

/-- Characters of the captured group `([0-9.   ,]+)` of
`RE_PRICE_LINE` (note: the plain space is not in the class). -/
def isPriceClassC (c : Char) : Bool := isDigitC c || c = '.' || isThinSpace c || c = ','

def priceKeywords : List (List Char) :=
  ["kaufpreis".data, "preis".data, "kaltmiete".data, "warmmiete".data,
   "nettokaltmiete".data, "miete".data]

def lowerPrefixAt (cs : List Char) (i : ℕ) (kw : List Char) : Bool :=
  pyLowerL ((cs.drop i).take kw.length) = kw

/-- After a keyword at position `j`, match `\s*:?\s*([0-9. ,]+)` with
Python's preference order (each `\s*` greedy, `:?` tried present-first) and
return the greedy capture group.  The trailing `\s*[€]?` always succeeds and
captures nothing. -/
def priceLineTail (cs : List Char) (j : ℕ) : Option (List Char) :=
  ((List.range (wsRunAt cs j + 1)).map (fun x => wsRunAt cs j - x)).findSome? (fun a =>
    let j1 := j + a
    ((if charAtIs cs j1 ':' then [j1 + 1, j1] else [j1])).findSome? (fun j2 =>
      ((List.range (wsRunAt cs j2 + 1)).map (fun x => wsRunAt cs j2 - x)).findSome? (fun b =>
        let g := (cs.drop (j2 + b)).takeWhile isPriceClassC
        if g = [] then none else some g)))

def matchPriceLineAt (cs : List Char) (i : ℕ) : Option (List Char) :=
  priceKeywords.findSome? (fun kw =>
    if lowerPrefixAt cs i kw then priceLineTail cs (i + kw.length) else none)

/-- `RE_PRICE_LINE.search`, returning the captured number group. -/
def searchPriceLine (cs : List Char) : Option (List Char) :=
  (List.range (cs.length + 1)).findSome? (fun i => matchPriceLineAt cs i)

/-- Characters of `[\d\s/.-]`, the long tail class of `RE_PHONE`. -/
def isPhoneTailC (c : Char) : Bool :=
  isDigitC c || isPyWs c || c = '/' || c = '.' || c = '-'

/-- End positions reachable by the optional `(?:\+?\d{1,3}[\s/.-]?)?` head
of `RE_PHONE` from position `i` (also containing `i` itself for the empty
option). -/
def phoneHeadEnds (cs : List Char) (i : ℕ) : List ℕ :=
  i :: ([i, i + 1].flatMap (fun p =>
    if p = i || charAtIs cs i '+' then
      [1, 2, 3].flatMap (fun d =>
        if decide (d ≤ digitsRunAt cs p) then
          (p + d) :: (if sepAt cs (p + d) || charAtIs cs (p + d) '/' ||
                        charAtIs cs (p + d) '-' || wsHead (cs.drop (p + d)) then
                        [p + d + 1] else [])
        else [])
    else []))

/-- Positions after the mandatory `(?:0\d|\d{2,3})` core of `RE_PHONE`. -/
def phoneCoreEnds (cs : List Char) (p : ℕ) : List ℕ :=
  (if charAtIs cs p '0' && decide (2 ≤ digitsRunAt cs p) then [p + 2] else []) ++
  [2, 3].flatMap (fun d => if decide (d ≤ digitsRunAt cs p) then [p + d] else [])

/-- Existence semantics of `RE_PHONE.search`: some position carries a match
of `\b(?:\+?\d{1,3}[\s/.-]?)?(?:0\d|\d{2,3})[\d\s/.-]{6,}\b`. -/
def phoneHit (cs : List Char) : Bool :=
  (List.range (cs.length + 1)).any (fun i =>
    boundaryAt cs i &&
    (phoneHeadEnds cs i).any (fun p =>
      (phoneCoreEnds cs p).any (fun q =>
        let run := ((cs.drop q).takeWhile isPhoneTailC).length
        (List.range (run + 1)).any (fun m =>
          decide (6 ≤ m) && boundaryAt cs (q + m)))))

def isEmailLocalC (c : Char) : Bool :=
  c.isAlphanum || c = '.' || c = '_' || c = '%' || c = '+' || c = '-'

def isEmailDomC (c : Char) : Bool := c.isAlphanum || c = '.' || c = '-'

def isAsciiAlphaC (c : Char) : Bool := c.isAlpha

def sliceAll (cs : List Char) (a b : ℕ) (p : Char → Bool) : Bool :=
  ((cs.drop a).take (b - a)).all p

/-- Existence semantics of `RE_EMAIL.search`
(`[A-Za-z0-9._%+-]+@[A-Za-z0-9.-]+\.[A-Za-z]{2,}`): a match exists iff some
`@` has a local character before it and, after a nonempty domain run, a
period followed by two letters. -/
def emailHit (cs : List Char) : Bool :=
  (List.range cs.length).any (fun i =>
    charAtIs cs i '@' && decide (1 ≤ i) &&
    (match cs.get? (i - 1) with
     | some c => isEmailLocalC c
     | none => false) &&
    (List.range (cs.length + 1)).any (fun p =>
      decide (i + 2 ≤ p) && charAtIs cs p '.' && sliceAll cs (i + 1) p isEmailDomC &&
      (match cs.get? (p + 1), cs.get? (p + 2) with
       | some a, some b => isAsciiAlphaC a && isAsciiAlphaC b
       | _, _ => false)))

/-- Existence semantics of `re.search(r"\bverkauft\b", title, re.IGNORECASE)`. -/
def verkauftHit (cs : List Char) : Bool :=
  (List.range (cs.length + 1)).any (fun i =>
    boundaryAt cs i && lowerPrefixAt cs i "verkauft".data && boundaryAt cs (i + 8))

/-- Case-insensitive substring containment, `sub.lower() in s.lower()` —
the predicate of claim C8. -/
def containsCI (s sub : List Char) : Bool :=
  containsSub (pyLowerL s) (pyLowerL sub)

/-! ### Price parsing helpers (`clean_price_string`, `parse_price_to_number`) -/

/-- The `clean_price_string` helper: first `RE_EUR_NUMBER` token, normalised,
parsed, re-rendered as a locale display string; empty string on any miss. -/
def clean_price_string (raw : List Char) : List Char :=
  if raw = [] then [] else
  match searchEurNumber raw with
  | none => []
  | some m =>
    match parseFloatD (normalize_numstring m) with
    | none => []
    | some v => formatEuro v

/-- The `parse_price_to_number` helper: numeric value of the first
`RE_EUR_NUMBER` token, or `none`. -/
def parse_price_to_number (label : List Char) : Option Dec :=
  if label = [] then none else
  match searchEurNumber label with
  | none => none
  | some m => parseFloatD (normalize_numstring m)

/-! ### Embedded JSON-LD offers (`extract_price_from_jsonld`) -/

mutual

/-- Parsed JSON values.  `json.loads` yields objects with unique keys (later
duplicates overwrite earlier ones), and the numeric literals appearing in
this site's offer metadata are integers, so numbers are modelled as `ℤ`.
Arrays and objects carry their children through the mutual types `JList` and
`JFields` so that all recursion over them is structural. -/
inductive JVal where
  | jnull : JVal
  | jbool : Bool → JVal
  | jnum : ℤ → JVal
  | jstr : String → JVal
  | jarr : JList → JVal
  | jobj : JFields → JVal

inductive JList where
  | nil : JList
  | cons : JVal → JList → JList

inductive JFields where
  | nil : JFields
  | cons : String → JVal → JFields → JFields

end

def jget : JFields → String → Option JVal
  | .nil, _ => none
  | .cons k v rest, key => if k = key then some v else jget rest key

def JFields.isNil : JFields → Bool
  | .nil => true
  | .cons _ _ _ => false

def JList.isNil : JList → Bool
  | .nil => true
  | .cons _ _ => false

/-- Python truthiness of a JSON value. -/
def truthyJ : JVal → Bool
  | .jnull => false
  | .jbool b => b
  | .jnum n => n != 0
  | .jstr s => s != ""
  | .jarr xs => !xs.isNil
  | .jobj fs => !fs.isNil

def lbrC : Char := Char.ofNat 0x5B

def rbrC : Char := Char.ofNat 0x5D

def lcuC : Char := Char.ofNat 0x7B

def rcuC : Char := Char.ofNat 0x7D

def quoC : Char := Char.ofNat 0x27

mutual

/-- Python `str()` of a JSON value (string-quoting inside containers is the
naive `repr` without escapes; any container rendering contains brackets and
so can never parse as a float, which is all the callers rely on). -/
def pyStrJ : JVal → List Char
  | .jnull => "None".data
  | .jbool true => "True".data
  | .jbool false => "False".data
  | .jnum n => (toString n).data
  | .jstr s => s.data
  | .jarr xs => lbrC :: pyStrJList xs ++ [rbrC]
  | .jobj fs => lcuC :: pyStrJFields fs ++ [rcuC]

def pyReprJ : JVal → List Char
  | .jstr s => quoC :: s.data ++ [quoC]
  | .jnull => "None".data
  | .jbool true => "True".data
  | .jbool false => "False".data
  | .jnum n => (toString n).data
  | .jarr xs => lbrC :: pyStrJList xs ++ [rbrC]
  | .jobj fs => lcuC :: pyStrJFields fs ++ [rcuC]

def pyStrJList : JList → List Char
  | .nil => []
  | .cons v .nil => pyReprJ v
  | .cons v rest => pyReprJ v ++ [',', ' '] ++ pyStrJList rest

def pyStrJFields : JFields → List Char
  | .nil => []
  | .cons k v .nil => quoC :: k.data ++ [quoC, ':', ' '] ++ pyReprJ v
  | .cons k v rest =>
    quoC :: k.data ++ [quoC, ':', ' '] ++ pyReprJ v ++ [',', ' '] ++ pyStrJFields rest

end

mutual

/-- No decimal digit occurs anywhere in the JSON value — no numeric literal
at all, and no digit character in any string or key.  The rendering of such
a value can never contain a digit. -/
def noDigJ : JVal → Bool
  | .jnull => true
  | .jbool _ => true
  | .jnum _ => false
  | .jstr s => s.data.all (fun c => !isDigitC c)
  | .jarr xs => noDigJL xs
  | .jobj fs => noDigJF fs

def noDigJL : JList → Bool
  | .nil => true
  | .cons v rest => noDigJ v && noDigJL rest

def noDigJF : JFields → Bool
  | .nil => true
  | .cons k v rest => k.data.all (fun c => !isDigitC c) && noDigJ v && noDigJF rest

end

def noDigO : Option JVal → Bool
  | none => true
  | some v => noDigJ v

/-- The conversion attempt
`float(str(price).replace(".", "").replace(",", "."))`. -/
def attemptFloatJ (v : JVal) : Option Dec :=
  parseFloatD (((pyStrJ v).filter (fun c => c ≠ '.')).map (fun c => if c = ',' then '.' else c))

def typeIsOffer : Option JVal → Bool
  | some (.jstr s) => s = "Offer" || s = "AggregateOffer"
  | _ => false

/-- The `for k in ("price", "lowPrice", "highPrice")` loop over a node:
`if k in node and node[k]: try float ... except: continue`. -/
def keysTry (fs : JFields) : List String → Option (List Char)
  | [] => none
  | k :: rest =>
    match jget fs k with
    | some v =>
      if truthyJ v then
        match attemptFloatJ v with
        | some q => some (formatEuro q)
        | none => keysTry fs rest
      else keysTry fs rest
    | none => keysTry fs rest

/-- Processing of one JSON-LD node (a dict): resolve the offer sub-object,
try its `price`/`lowPrice`, then fall through to the node's own
`price`/`lowPrice`/`highPrice` keys. -/
def nodeTry (fs : JFields) : Option (List Char) :=
  let offer : Option JVal :=
    if typeIsOffer (jget fs "@type") then some (.jobj fs)
    else match jget fs "offers" with
      | some o => some o
      | none => none
  let r1 : Option (List Char) :=
    match offer with
    | some (.jobj od) =>
      let p1 := (jget od "price").getD .jnull
      let price := if truthyJ p1 then p1 else (jget od "lowPrice").getD .jnull
      if truthyJ price then (attemptFloatJ price).map formatEuro else none
    | _ => none
  match r1 with
  | some r => some r
  | none => keysTry fs ["price", "lowPrice", "highPrice"]

def toNodes : JVal → JList
  | .jarr xs => xs
  | v => .cons v .nil

def nodesScan : JList → Option (List Char)
  | .nil => none
  | .cons (.jobj fs) rest =>
    (match nodeTry fs with
     | some r => some r
     | none => nodesScan rest)
  | .cons _ rest => nodesScan rest

/-- The `extract_price_from_jsonld` strategy over the page's parsed
`ld+json` scripts (`none` marks a script whose `json.loads` raised). -/
def extract_price_from_jsonld : List (Option JVal) → List Char
  | [] => []
  | none :: rest => extract_price_from_jsonld rest
  | some v :: rest =>
    match nodesScan (toNodes v) with
    | some r => r
    | none => extract_price_from_jsonld rest

/-! ### DOM price strategies (`extract_price_dom`, `extract_price_strict_top`) -/

/-- A page document, restricted to the parts the price extractor inspects:
parsed `ld+json` scripts, the `dt` texts with their following `dd` sibling
texts, the `th`/`td` cell texts of each table row, and the `li` texts, each
in document order. -/
structure PSoup where
  scripts : List (Option JVal)
  dts : List (List Char × Option (List Char))
  rows : List (List (List Char))
  lis : List (List Char)

def domKeywords : List (List Char) :=
  ["kaufpreis".data, "kaltmiete".data, "warmmiete".data, "nettokaltmiete".data,
   "miete".data, "preis".data]

def hasDomKeyword (label : List Char) : Bool :=
  domKeywords.any (fun k => containsSub (pyLowerL label) k)

def dtScan : List (List Char × Option (List Char)) → Option (List Char)
  | [] => none
  | (label, dd) :: rest =>
    if hasDomKeyword label then
      match dd with
      | some d =>
        let got := clean_price_string d
        if got ≠ [] then some got else dtScan rest
      | none => dtScan rest
    else dtScan rest

def trScan : List (List (List Char)) → Option (List Char)
  | [] => none
  | cells :: rest =>
    if 2 ≤ cells.length then
      if hasDomKeyword (cells.headI) then
        let got := clean_price_string (cells.getD 1 [])
        if got ≠ [] then some got else trScan rest
      else trScan rest
    else trScan rest

/-- The `li` loop returns `clean_price_string(m.group(2) + " €")` as soon as
`RE_PRICE_LINE` matches — even when that cleaning yields the empty string. -/
def liScan : List (List Char) → Option (List Char)
  | [] => none
  | txt :: rest =>
    match searchPriceLine txt with
    | some g => some (clean_price_string (g ++ " €".data))
    | none => liScan rest

/-- The `extract_price_dom` strategy: definition lists, then table rows,
then list items. -/
def extract_price_dom (s : PSoup) : List Char :=
  match dtScan s.dts with
  | some r => r
  | none =>
    match trScan s.rows with
    | some r => r
    | none =>
      match liScan s.lis with
      | some r => r
      | none => []

/-- Numeric value of one `RE_EUR_ANY` match, `0.0` on any failure (the
`to_float` helper of the final fallback). -/
def toFloatKey (e : List Char) : Dec :=
  match searchEurNumber e with
  | none => Dec.ofInt 0
  | some mm => (parseFloatD (normalize_numstring mm)).getD (Dec.ofInt 0)

/-- The `extract_price_strict_top` strategy: keep the `RE_EUR_ANY` matches
whose value is at least 10000 and clean the first. -/
def extract_price_strict_top (page_text : List Char) : List Char :=
  let euros := finditerAny page_text
  let filtered := euros.filter (fun e =>
    match searchEurNumber e with
    | none => false
    | some mm =>
      match parseFloatD (normalize_numstring mm) with
      | none => false
      | some v => Dec.leD (Dec.ofInt 10000) v)
  match filtered with
  | [] => []
  | e :: _ => clean_price_string e

/-- Python's `max(euros, key=to_float)`: the first element attaining the
maximal key. -/
def maxByKey (x : List Char) (xs : List (List Char)) : List Char :=
  xs.foldl (fun best e => if Dec.ltD (toFloatKey best) (toFloatKey e) then e else best) x

/-- The `extract_price` cascade: JSON-LD offers, DOM labels, the
≥10000-filtered text scan, then the global maximum of every `RE_EUR_ANY`
match. -/
def extract_price (s : PSoup) (page_text : List Char) : List Char :=
  let p1 := extract_price_from_jsonld s.scripts
  if p1 ≠ [] then p1 else
  let p2 := extract_price_dom s
  if p2 ≠ [] then p2 else
  let p3 := extract_price_strict_top page_text
  if p3 ≠ [] then p3 else
  match finditerAny page_text with
  | [] => []
  | e :: es => clean_price_string (maxByKey e es)

/-! ### Description extraction (`_clean_desc_lines`, `extract_description`) -/

/-- The `STOP_STRINGS` boilerplate phrases. -/
def stopStrings : List String :=
  ["Ihre Anfrage", "Exposé anfordern", "Neueste Immobilien", "Teilen auf",
   "Datenschutz", "Impressum", "designed by wavepoint",
   "Ansprechpartner", "Kontaktieren Sie uns", "Zur Objektanfrage",
   "msi-hessen.de"]

/-- Test `any(s.lower() in t.lower() for s in STOP_STRINGS)`. -/
def stopHit (t : List Char) : Bool :=
  stopStrings.any (fun s => containsSub (pyLowerL t) (pyLowerL s.data))

/-- One paragraph of a candidate box: whether it carries the `h4` class, and
its `get_text(" ", strip=True)` text.  The `p is head` test of the source is
subsumed by the class test, because the head, when it is a paragraph at all,
is matched by the selector `p.h4` and hence carries that class. -/
structure PNodeB where
  isH4 : Bool
  text : String
deriving DecidableEq

/-- A candidate description box (the `.v-card__text` container the
per-candidate `select_one` chain resolves to): its paragraphs, its
`ul li`/`ol li` texts, and the text of its `p.h4, h4` heading if any. -/
structure DBox where
  ps : List PNodeB
  lis : List String
  headText : Option String
deriving DecidableEq

/-- A page document, restricted to the parts the description extractor
inspects: the `#tab-0` panel, the active `.v-window-item--active` panel, and
the `.v-card__text` boxes of the fallback scan, in document order. -/
structure DSoup where
  tab0 : Option DBox
  activeItem : Option DBox
  fallbackBoxes : List DBox

/-- Collected raw lines of a box: paragraph texts except `h4`-classed ones,
then list items prefixed with a bullet, each `_norm`-alised and dropped when
empty. -/
def collectLines (b : DBox) : List (List Char) :=
  (b.ps.filterMap (fun p =>
    if p.isH4 then none
    else
      let t := pynorm p.text.data
      if t = [] then none else some t))
  ++ (b.lis.filterMap (fun s =>
    let t := pynorm s.data
    if t = [] then none else some ("• ".data ++ t)))

/-- Worker of `_clean_desc_lines` carrying the `seen` set. -/
def cleanDescAux : List (List Char) → List (List Char) → List (List Char)
  | [], _ => []
  | t₀ :: rest, seen =>
    let t := pynorm t₀
    if t = [] then cleanDescAux rest seen
    else if stopHit t then cleanDescAux rest seen
    else if phoneHit t || emailHit t then cleanDescAux rest seen
    else if seen.contains t then cleanDescAux rest seen
    else t :: cleanDescAux rest (t :: seen)

/-- The `_clean_desc_lines` helper: normalise, drop empties, boilerplate and
contact lines, deduplicate keeping first occurrences. -/
def cleanDescLines (ls : List (List Char)) : List (List Char) :=
  cleanDescAux ls []

/-- Python's `"\n".join`. -/
def joinNl : List (List Char) → List Char
  | [] => []
  | [l] => l
  | l :: rest => l ++ '\n' :: joinNl rest

/-- Candidate boxes in the order the source assembles them: `#tab-0`, then
the active panel unless it is already listed (bs4 tags compare by markup
equality), and the heading-matched `.v-card__text` boxes only when neither
panel exists. -/
def candidates (s : DSoup) : List DBox :=
  let c1 : List DBox :=
    match s.tab0 with
    | some b => [b]
    | none => []
  let c2 : List DBox :=
    match s.activeItem with
    | some b => if c1.contains b then c1 else c1 ++ [b]
    | none => c1
  if c2 = [] then
    s.fallbackBoxes.filter (fun b =>
      match b.headText with
      | some h => pyLowerL (pynorm h.data) = "beschreibung".data
      | none => false)
  else c2

/-- Scan the candidates and return the first nonempty cleaned content,
joined by newlines and truncated to the 6000-character budget. -/
def descScan : List DBox → List Char
  | [] => []
  | b :: rest =>
    let lines := cleanDescLines (collectLines b)
    if lines ≠ [] then (joinNl lines).take 6000 else descScan rest

/-- The `extract_description` function. -/
def extract_description (s : DSoup) : List Char :=
  descScan (candidates s)

/-- Python's `split("\n")`. -/
def splitNl : List Char → List (List Char)
  | [] => [[]]
  | c :: rest =>
    if c = '\n' then [] :: splitNl rest
    else
      match splitNl rest with
      | g :: gs => (c :: g) :: gs
      | [] => [[c]]

/-! ### Records and the sync engine -/

/-- Field values of the records this script builds and compares: strings,
numbers (Python floats/ints, exact decimals here, with `int == float`
equality holding as in Python), and `None`.  `FVal.none_` also stands for a
missing key under `dict.get`, exactly as in Python. -/
inductive FVal where
  | str : String → FVal
  | num : Dec → FVal
  | none_ : FVal
deriving DecidableEq

/-- A record: an insertion-ordered field map, as Python dicts are. -/
abbrev Rec := List (String × FVal)

def lookupF (r : Rec) (k : String) : Option FVal :=
  List.lookup k r

/-- Python `fields.get(k)`: `None` both for a missing key and a stored
`None`. -/
def pyGet (r : Rec) (k : String) : FVal :=
  (lookupF r k).getD .none_

/-- String content of a field under `(fields.get(k) or "")`: missing keys
and `None` give the empty string.  (On a non-string truthy value the Python
code would raise inside `.strip()`; theorems about the sync engine therefore
assume the key fields are strings or absent, see `keyFieldsOk`.) -/
def strField (r : Rec) (k : String) : List Char :=
  match lookupF r k with
  | some (.str s) => s.data
  | _ => []

/-- Domain restriction under which `unique_key` is faithful: `Objektnummer`
and `Webseite` are strings, `None`, or absent (on any other value the
source itself crashes in `.strip()` before emitting a single operation). -/
def okKeyVal : Option FVal → Bool
  | none => true
  | some .none_ => true
  | some (.str _) => true
  | some (.num _) => false

def keyFieldsOk (r : Rec) : Bool :=
  okKeyVal (lookupF r "Objektnummer") && okKeyVal (lookupF r "Webseite")

/-- The `unique_key` function.  `hashRec` abstracts Python's
`hash(json.dumps(fields, sort_keys=True))` — an arbitrary but fixed
integer-valued function of the record; every theorem holds for all of
them. -/
def unique_key (hashRec : Rec → ℤ) (f : Rec) : String :=
  let obj := pyStrip (strField f "Objektnummer")
  if obj ≠ [] then String.mk ("obj:".data ++ obj)
  else
    let url := pyStrip (strField f "Webseite")
    if url ≠ [] then String.mk ("url:".data ++ url)
    else String.mk ("hash:".data ++ (toString (hashRec f)).data)

/-- The `sanitize_record_for_airtable` function: drop a `None`/empty
`Preis`, then — when the allowed-field set is nonempty — keep only allowed
fields plus the always-allowed `Kurzbeschreibung`. -/
def sanitize_record_for_airtable (record : Rec) (allowed : List String) : Rec :=
  let out : Rec :=
    match lookupF record "Preis" with
    | some v =>
      if v = .none_ || v = .str "" then record.filter (fun p => p.1 ≠ "Preis")
      else record
    | none => record
  if allowed ≠ [] then
    out.filter (fun p => (allowed ++ ["Kurzbeschreibung"]).contains p.1)
  else out

/-- Python dict assignment `d[k] = v`: overwrite in place or append. -/
def dinsert (d : List (String × α)) (k : String) (v : α) : List (String × α) :=
  if (List.lookup k d).isSome then
    d.map (fun p => if p.1 = k then (k, v) else p)
  else d ++ [(k, v)]

/-- Build a Python dict from assignments in order. -/
def buildDict (l : List (String × α)) : List (String × α) :=
  l.foldl (fun d p => dinsert d p.1 p.2) []

/-- Test `f.get("Kategorie") == category_label`. -/
def catEq (r : Rec) (label : String) : Bool :=
  match lookupF r "Kategorie" with
  | some (.str s) => s = label
  | _ => false

/-- The `existing` dict of `sync_category`: remote `(id, fields)` pairs of
the category, keyed by natural key. -/
def existingDict (hashRec : Rec → ℤ) (pairs : List (String × Rec)) (label : String) :
    List (String × (String × Rec)) :=
  buildDict ((pairs.filter (fun p => catEq p.2 label)).map
    (fun p => (unique_key hashRec p.2, p)))

/-- The `desired` dict of `sync_category`: sanitized scraped records of the
category, keyed by natural key. -/
def desiredDict (hashRec : Rec → ℤ) (allowed : List String) (scraped : List Rec)
    (label : String) : List (String × Rec) :=
  buildDict ((scraped.filter (fun r => catEq r label)).map
    (fun r => (unique_key hashRec r, sanitize_record_for_airtable r allowed)))

/-- Field-level diff `{fld: val for fld, val in fields.items() if
old.get(fld) != val}`. -/
def diffFields (old fields : Rec) : Rec :=
  fields.filter (fun fv => pyGet old fv.1 != fv.2)

/-- The per-key loop of `sync_category`, producing `to_create`, `to_update`
and `keep` in iteration order. -/
def syncLoop (E : List (String × (String × Rec))) :
    List (String × Rec) → List Rec × List (String × Rec) × List String
  | [] => ([], [], [])
  | (k, fields) :: rest =>
    let r := syncLoop E rest
    match List.lookup k E with
    | some (rid, old) =>
      let d := diffFields old fields
      (r.1, if d = [] then r.2.1 else (rid, d) :: r.2.1, k :: r.2.2)
    | none => (fields :: r.1, r.2.1, r.2.2)

/-- The `sync_category` function: `(to_create, to_update, to_delete_ids)`.
`pairs` is the zipped result of `airtable_list_all`, `allowed` the field-name
set of `airtable_existing_fields`. -/
def sync_category (hashRec : Rec → ℤ) (allowed : List String)
    (pairs : List (String × Rec)) (scraped : List Rec) (label : String) :
    List Rec × List (String × Rec) × List String :=
  let E := existingDict hashRec pairs label
  let D := desiredDict hashRec allowed scraped label
  let r := syncLoop E D
  (r.1, r.2.1, (E.filter (fun e => !r.2.2.contains e.1)).map (fun e => e.2.1))

/-- Updates together with the natural key they stem from (the value part is
exactly the emitted `to_update` entry). -/
def keyedUpdates (E : List (String × (String × Rec))) (D : List (String × Rec)) :
    List (String × (String × Rec)) :=
  D.filterMap (fun p =>
    match List.lookup p.1 E with
    | some (rid, old) =>
      let d := diffFields old p.2
      if d = [] then none else some (p.1, (rid, d))
    | none => none)

/-! ### Scrape rows, `make_record` and the `verkauft` filter of `run` -/

/-- The dict `parse_detail` returns, restricted to the fields `make_record`
reads. -/
structure Row where
  Titel : String
  URL : String
  Description : String
  Objektnummer : String
  Preis : String
  Ort : String
  Bild_URL : String
  KategorieDetected : String
deriving DecidableEq

/-- The `make_record` function.  The short summary produced by the external
text-generation collaborator is passed in as `kurz`. -/
def make_record (kurz : String) (row : Row) : Rec :=
  [("Titel", .str row.Titel),
   ("Kategorie", .str row.KategorieDetected),
   ("Webseite", .str row.URL),
   ("Objektnummer", .str row.Objektnummer),
   ("Beschreibung", .str row.Description),
   ("Kurzbeschreibung", .str kurz),
   ("Bild", .str row.Bild_URL),
   ("Preis", match parse_price_to_number row.Preis.data with
             | some d => .num d
             | none => .none_),
   ("Standort", .str row.Ort)]

/-- The per-listing loop of `run`: skip rows whose title matches
`\bverkauft\b` case-insensitively, build records for the rest (`gen` models
the external summary generator). -/
def collectRows (gen : Row → String) : List Row → List Rec
  | [] => []
  | r :: rest =>
    if verkauftHit r.Titel.data then collectRows gen rest
    else make_record (gen r) r :: collectRows gen rest

/-! ### Dict and sync-loop lemmas -/

theorem lookup_map_replace (d : List (String × α)) (k x : String) (v : α) :
    List.lookup x (d.map (fun p => if p.1 = k then (k, v) else p)) =
      if x = k then (if (List.lookup k d).isSome then some v else none)
      else List.lookup x d := by
  induction d with
  | nil => simp
  | cons p rest ih =>
    obtain ⟨pk, pv⟩ := p
    simp only [List.map_cons]
    by_cases hpk : pk = k
    · subst hpk
      by_cases hxk : x = pk
      · subst hxk
        simp [List.lookup_cons]
      · simp [List.lookup_cons, beq_false_of_ne hxk, hxk] at ih ⊢
        exact ih
    · by_cases hxp : x = pk
      · subst hxp
        have hxk : ¬ x = k := hpk
        simp [List.lookup_cons, if_neg hpk, hxk]
      · simp only [if_neg hpk, List.lookup_cons, beq_false_of_ne hxp,
                   beq_false_of_ne (fun h => hpk h.symm)]
        exact ih

theorem lookup_dinsert (d : List (String × α)) (k x : String) (v : α) :
    List.lookup x (dinsert d k v) = if x = k then some v else List.lookup x d := by
  unfold dinsert
  by_cases hk : (List.lookup k d).isSome
  · rw [if_pos hk, lookup_map_replace]
    by_cases hxk : x = k
    · simp [hxk, hk]
    · simp [hxk]
  · rw [if_neg hk, List.lookup_append]
    by_cases hxk : x = k
    · subst hxk
      have hnone : List.lookup x d = none := by
        cases h : List.lookup x d with
        | none => rfl
        | some w => rw [h] at hk; simp at hk
      simp [hnone, List.lookup_cons]
    · simp [List.lookup_cons, beq_false_of_ne hxk, hxk]

theorem lookup_buildDict_aux (l : List (String × α)) (acc : List (String × α)) (k : String) :
    List.lookup k (l.foldl (fun d p => dinsert d p.1 p.2) acc) =
      ((l.reverse.find? (fun p => p.1 == k)).map Prod.snd).or (List.lookup k acc) := by
  induction l generalizing acc with
  | nil => simp
  | cons p rest ih =>
    simp only [List.foldl_cons, List.reverse_cons, List.find?_append, Option.map_or',
               ih (dinsert acc p.1 p.2), lookup_dinsert, Option.or_assoc]
    congr 1
    by_cases hpk : p.1 = k
    · subst hpk
      simp [List.find?_cons]
    · have h1 : (p.1 == k) = false := beq_false_of_ne hpk
      have h2 : ¬ k = p.1 := fun h => hpk h.symm
      simp [List.find?_cons, h1, h2]

/-- Dict lookup is the value of the last assignment with that key. -/
theorem lookup_buildDict (l : List (String × α)) (k : String) :
    List.lookup k (buildDict l) =
      (l.reverse.find? (fun p => p.1 == k)).map Prod.snd := by
  rw [buildDict, lookup_buildDict_aux]
  simp

theorem keys_dinsert (d : List (String × α)) (k : String) (v : α) :
    (dinsert d k v).map Prod.fst =
      if (List.lookup k d).isSome then d.map Prod.fst else d.map Prod.fst ++ [k] := by
  unfold dinsert
  by_cases hk : (List.lookup k d).isSome
  · rw [if_pos hk, if_pos hk, List.map_map]
    refine List.map_congr_left (fun p _ => ?_)
    by_cases hpk : p.1 = k
    · simp [hpk]
    · simp [hpk]
  · rw [if_neg hk, if_neg hk]
    simp

theorem keys_buildDict_nodup (l : List (String × α)) : ((buildDict l).map Prod.fst).Nodup := by
  suffices h : ∀ acc : List (String × α), (acc.map Prod.fst).Nodup →
      ((l.foldl (fun d p => dinsert d p.1 p.2) acc).map Prod.fst).Nodup by
    exact h [] (by simp)
  induction l with
  | nil => intro acc hacc; simpa using hacc
  | cons p rest ih =>
    intro acc hacc
    simp only [List.foldl_cons]
    refine ih (dinsert acc p.1 p.2) ?_
    rw [keys_dinsert]
    by_cases hk : (List.lookup p.1 acc).isSome
    · simpa [hk] using hacc
    · rw [if_neg hk]
      have hnotin : p.1 ∉ acc.map Prod.fst := by
        intro hmem
        obtain ⟨q, hq, hq1⟩ := List.mem_map.mp hmem
        exact hk (List.lookup_isSome_iff.mpr ⟨q, hq, by simp [hq1]⟩)
      simp only [List.nodup_append]
      exact ⟨hacc, List.nodup_singleton _, by simpa using fun h => hnotin h⟩

theorem mem_dinsert (d : List (String × α)) (k : String) (v : α) :
    ∀ q ∈ dinsert d k v, q = (k, v) ∨ q ∈ d := by
  intro q hq
  unfold dinsert at hq
  by_cases hk : (List.lookup k d).isSome
  · rw [if_pos hk] at hq
    obtain ⟨p, hp, hpe⟩ := List.mem_map.mp hq
    by_cases hpk : p.1 = k
    · left; rw [← hpe]; simp [hpk]
    · right; rw [← hpe]; simpa [hpk] using hp
  · rw [if_neg hk] at hq
    rcases List.mem_append.mp hq with h | h
    · right; exact h
    · left; simpa using h

theorem mem_buildDict (l : List (String × α)) : ∀ q ∈ buildDict l, q ∈ l := by
  suffices h : ∀ acc : List (String × α), ∀ q ∈ l.foldl (fun d p => dinsert d p.1 p.2) acc,
      q ∈ acc ∨ q ∈ l by
    intro q hq
    rcases h [] q hq with h' | h'
    · simp at h'
    · exact h'
  induction l with
  | nil => intro acc q hq; left; simpa using hq
  | cons p rest ih =>
    intro acc q hq
    simp only [List.foldl_cons] at hq
    rcases ih (dinsert acc p.1 p.2) q hq with h' | h'
    · rcases mem_dinsert acc p.1 p.2 q h' with h'' | h''
      · right; simp [h'']
      · left; exact h''
    · right; simp [h']

/-- Characterisation of the per-key loop: creates are the desired entries
with unseen keys, updates are the nonempty diffs of the seen keys, and
`keep` collects the seen keys. -/
theorem syncLoop_spec (E : List (String × (String × Rec))) (D : List (String × Rec)) :
    syncLoop E D =
      ((D.filter (fun p => (List.lookup p.1 E).isNone)).map Prod.snd,
       (keyedUpdates E D).map Prod.snd,
       (D.filter (fun p => (List.lookup p.1 E).isSome)).map Prod.fst) := by
  induction D with
  | nil => simp [syncLoop, keyedUpdates]
  | cons p rest ih =>
    obtain ⟨k, fields⟩ := p
    simp only [syncLoop, ih, keyedUpdates, List.filterMap_cons, List.filter_cons]
    cases hE : List.lookup k E with
    | none => simp [hE]
    | some ro =>
      obtain ⟨rid, old⟩ := ro
      by_cases hd : diffFields old fields = []
      · simp [hE, hd, keyedUpdates]
      · simp [hE, hd, keyedUpdates]

theorem keys_keyedUpdates (E : List (String × (String × Rec))) (D : List (String × Rec)) :
    ∀ q ∈ keyedUpdates E D, ∃ p ∈ D, q.1 = p.1 ∧
      ∃ old, List.lookup p.1 E = some (q.2.1, old) ∧ q.2.2 = diffFields old p.2 ∧
        diffFields old p.2 ≠ [] := by
  intro q hq
  obtain ⟨p, hp, hpe⟩ := List.mem_filterMap.mp hq
  refine ⟨p, hp, ?_⟩
  cases hE : List.lookup p.1 E with
  | none => rw [hE] at hpe; simp at hpe
  | some ro =>
    obtain ⟨rid, old⟩ := ro
    rw [hE] at hpe
    dsimp only at hpe
    by_cases hd : diffFields old p.2 = []
    · simp [hd] at hpe
    · rw [if_neg hd] at hpe
      injection hpe with hpe
      subst hpe
      exact ⟨rfl, old, rfl, rfl, hd⟩

theorem lookup_keyedUpdates (E : List (String × (String × Rec))) (D : List (String × Rec))
    (hD : (D.map Prod.fst).Nodup) (k : String) (f : Rec) (rid : String) (old : Rec)
    (hk : List.lookup k D = some f) (hE : List.lookup k E = some (rid, old)) :
    List.lookup k (keyedUpdates E D) =
      if diffFields old f = [] then none else some (rid, diffFields old f) := by
  induction D with
  | nil => simp at hk
  | cons p rest ih =>
    obtain ⟨pk, pv⟩ := p
    simp only [List.map_cons, List.nodup_cons] at hD
    by_cases hpk : pk = k
    · subst hpk
      have hf : pv = f := by
        rw [List.lookup_cons_self] at hk
        exact Option.some.inj hk
      subst hf
      have hrest : List.lookup pk (keyedUpdates E rest) = none := by
        rw [List.lookup_eq_none_iff]
        intro q hq
        obtain ⟨p', hp', hq1, _⟩ := keys_keyedUpdates E rest q hq
        have hmem : p'.1 ∈ rest.map Prod.fst := List.mem_map.mpr ⟨p', hp', rfl⟩
        simp only [bne_iff_ne, ne_eq]
        intro hcon
        rw [hcon, hq1] at hD
        exact hD.1 hmem
      simp only [keyedUpdates, List.filterMap_cons, hE]
      by_cases hd : diffFields old pv = []
      · rw [if_pos hd, if_pos hd]
        exact hrest
      · rw [if_neg hd, if_neg hd, List.lookup_cons_self]
    · have hkrest : List.lookup k rest = some f := by
        rw [List.lookup_cons, beq_false_of_ne (fun h => hpk h.symm)] at hk
        exact hk
      have ihr := ih hD.2 hkrest
      simp only [keyedUpdates, List.filterMap_cons] at ihr ⊢
      cases hEp : List.lookup pk E with
      | none => exact ihr
      | some ro =>
        obtain ⟨rid', old'⟩ := ro
        dsimp only
        by_cases hd' : diffFields old' pv = []
        · rw [if_pos hd']
          exact ihr
        · rw [if_neg hd', List.lookup_cons, beq_false_of_ne (fun h => hpk h.symm)]
          exact ihr

theorem mem_of_lookup_eq_some {l : List (String × α)} {k : String} {b : α}
    (h : List.lookup k l = some b) : (k, b) ∈ l := by
  obtain ⟨l₁, l₂, hl, -⟩ := List.lookup_eq_some_iff.mp h
  rw [hl]
  simp

theorem lookup_of_mem_nodup {l : List (String × α)} (h : (l.map Prod.fst).Nodup)
    {p : String × α} (hp : p ∈ l) : List.lookup p.1 l = some p.2 := by
  induction l with
  | nil => simp at hp
  | cons q rest ih =>
    obtain ⟨qk, qv⟩ := q
    simp only [List.map_cons, List.nodup_cons] at h
    rcases List.mem_cons.mp hp with hq | hq
    · subst hq
      exact List.lookup_cons_self
    · have hne : p.1 ≠ qk := by
        intro hcon
        exact h.1 (hcon ▸ List.mem_map.mpr ⟨p, hq, rfl⟩)
      rw [List.lookup_cons, beq_false_of_ne hne]
      exact ih h.2 hq

theorem lookup_filter_keyTrue {l : List (String × α)} {q : String × α → Bool} {k : String}
    (hq : ∀ v, q (k, v) = true) : List.lookup k (l.filter q) = List.lookup k l := by
  induction l with
  | nil => simp
  | cons p rest ih =>
    obtain ⟨pk, pv⟩ := p
    by_cases hpk : pk = k
    · subst hpk
      simp [List.filter_cons, hq pv, List.lookup_cons, ih]
    · cases hqp : q (pk, pv) with
      | true =>
        simp [List.filter_cons, hqp, List.lookup_cons,
              beq_false_of_ne (fun h => hpk h.symm), ih]
      | false =>
        simp [List.filter_cons, hqp, List.lookup_cons,
              beq_false_of_ne (fun h => hpk h.symm), ih]

theorem lookup_filter_keyFalse {l : List (String × α)} {q : String × α → Bool} {k : String}
    (hq : ∀ v, q (k, v) = false) : List.lookup k (l.filter q) = none := by
  rw [List.lookup_eq_none_iff]
  intro p hp
  obtain ⟨hmem, hqp⟩ := List.mem_filter.mp hp
  simp only [bne_iff_ne, ne_eq]
  intro hcon
  obtain ⟨pk, pv⟩ := p
  simp only at hcon
  subst hcon
  rw [hq pv] at hqp
  simp at hqp

/-- What sanitization does to the `Kategorie` field: it is kept verbatim
when the allowed-field filter is off or lists it, dropped otherwise, and
never altered. -/
theorem sanitize_Kategorie (r : Rec) (allowed : List String) (v : FVal)
    (h : lookupF r "Kategorie" = some v) :
    (lookupF (sanitize_record_for_airtable r allowed) "Kategorie" = some v ∨
     lookupF (sanitize_record_for_airtable r allowed) "Kategorie" = none) ∧
    ((allowed = [] ∨ "Kategorie" ∈ allowed) →
      lookupF (sanitize_record_for_airtable r allowed) "Kategorie" = some v) := by
  unfold sanitize_record_for_airtable
  have hstep : ∀ out : Rec, lookupF out "Kategorie" = some v →
      (lookupF (if allowed ≠ [] then
          out.filter (fun p => (allowed ++ ["Kurzbeschreibung"]).contains p.1) else out)
        "Kategorie" = some v ∨
       lookupF (if allowed ≠ [] then
          out.filter (fun p => (allowed ++ ["Kurzbeschreibung"]).contains p.1) else out)
        "Kategorie" = none) ∧
      ((allowed = [] ∨ "Kategorie" ∈ allowed) →
        lookupF (if allowed ≠ [] then
            out.filter (fun p => (allowed ++ ["Kurzbeschreibung"]).contains p.1) else out)
          "Kategorie" = some v) := by
    intro out hout
    by_cases hall : allowed = []
    · simp [hall, hout]
    · rw [if_pos hall]
      by_cases hmem : "Kategorie" ∈ allowed ++ ["Kurzbeschreibung"]
      · have hkeep : lookupF (out.filter
            (fun p => (allowed ++ ["Kurzbeschreibung"]).contains p.1)) "Kategorie" = some v := by
          unfold lookupF
          rw [lookup_filter_keyTrue (fun _ => by simpa using hmem)]
          exact hout
        exact ⟨Or.inl hkeep, fun _ => hkeep⟩
      · have hdrop : lookupF (out.filter
            (fun p => (allowed ++ ["Kurzbeschreibung"]).contains p.1)) "Kategorie" = none := by
          unfold lookupF
          exact lookup_filter_keyFalse (fun _ => by
            simp only [List.contains_eq_any_beq]
            rw [List.any_eq_false]
            intro a ha
            simp only [beq_iff_eq]
            intro hcon
            subst hcon
            exact hmem ha)
        refine ⟨Or.inr hdrop, fun hc => ?_⟩
        rcases hc with hc | hc
        · exact absurd hc hall
        · exact absurd (List.mem_append.mpr (Or.inl hc)) hmem
  have hpre : lookupF
      (match lookupF r "Preis" with
       | some v' =>
         if v' = .none_ || v' = .str "" then r.filter (fun p => p.1 ≠ "Preis") else r
       | none => r) "Kategorie" = some v := by
    cases hP : lookupF r "Preis" with
    | none => exact h
    | some v' =>
      dsimp only
      split
      · unfold lookupF
        rw [lookup_filter_keyTrue (fun _ => by simp)]
        exact h
      · exact h
  exact hstep _ hpre

/-- The operations `sync_category` emits, written in closed form. -/
theorem sync_category_spec (hashRec : Rec → ℤ) (allowed : List String)
    (pairs : List (String × Rec)) (scraped : List Rec) (label : String) :
    sync_category hashRec allowed pairs scraped label =
      (List.map Prod.snd
         ((desiredDict hashRec allowed scraped label).filter
           (fun p => (List.lookup p.1 (existingDict hashRec pairs label)).isNone)),
       (keyedUpdates (existingDict hashRec pairs label)
          (desiredDict hashRec allowed scraped label)).map Prod.snd,
       List.map (fun e => e.2.1)
         ((existingDict hashRec pairs label).filter
           (fun e => (List.lookup e.1 (desiredDict hashRec allowed scraped label)).isNone))) := by
  unfold sync_category
  simp only [syncLoop_spec]
  congr 1
  congr 1
  refine congrArg _ ?_
  refine List.filter_congr (fun e he => ?_)
  have hiff : (e.1 ∈ ((desiredDict hashRec allowed scraped label).filter
      (fun p => (List.lookup p.1 (existingDict hashRec pairs label)).isSome)).map Prod.fst) ↔
      (List.lookup e.1 (desiredDict hashRec allowed scraped label)).isSome := by
    constructor
    · intro hmem
      obtain ⟨p, hp, hpe⟩ := List.mem_map.mp hmem
      exact List.lookup_isSome_iff.mpr ⟨p, (List.mem_filter.mp hp).1, by simp [hpe]⟩
    · intro hs
      obtain ⟨p, hp, hpe⟩ := List.lookup_isSome_iff.mp hs
      have hpE : (List.lookup p.1 (existingDict hashRec pairs label)).isSome := by
        refine List.lookup_isSome_iff.mpr ⟨e, he, ?_⟩
        have h1 : e.1 = p.1 := by simpa using hpe
        simp [h1]
      refine List.mem_map.mpr ⟨p, List.mem_filter.mpr ⟨hp, hpE⟩, ?_⟩
      have h1 : e.1 = p.1 := by simpa using hpe
      exact h1.symm
  rw [Bool.eq_iff_iff]
  simp only [Bool.not_eq_true', Option.isNone_iff_eq_none]
  constructor
  · intro hc
    have hnm : e.1 ∉ ((desiredDict hashRec allowed scraped label).filter
        (fun p => (List.lookup p.1 (existingDict hashRec pairs label)).isSome)).map Prod.fst := by
      intro hm
      have hct : (((desiredDict hashRec allowed scraped label).filter
          (fun p => (List.lookup p.1 (existingDict hashRec pairs label)).isSome)).map
            Prod.fst).contains e.1 = true := by
        simp only [List.contains_eq_any_beq, List.any_eq_true]
        exact ⟨e.1, hm, by simp⟩
      rw [hct] at hc
      cases hc
    have hns : ¬ (List.lookup e.1 (desiredDict hashRec allowed scraped label)).isSome :=
      fun hs => hnm (hiff.mpr hs)
    cases hlk : List.lookup e.1 (desiredDict hashRec allowed scraped label) with
    | none => rfl
    | some w => rw [hlk] at hns; simp at hns
  · intro hn
    have hns : ¬ (List.lookup e.1 (desiredDict hashRec allowed scraped label)).isSome := by
      rw [hn]
      simp
    have hnm : e.1 ∉ ((desiredDict hashRec allowed scraped label).filter
        (fun p => (List.lookup p.1 (existingDict hashRec pairs label)).isSome)).map Prod.fst :=
      fun hm => hns (hiff.mp hm)
    rw [← Bool.not_eq_true]
    intro hc
    apply hnm
    simp only [List.contains_eq_any_beq, List.any_eq_true] at hc
    obtain ⟨a, ha, hae⟩ := hc
    have h1 : e.1 = a := by simpa using hae
    rwa [h1]

theorem diffFields_ne (old f : Rec) : ∀ fv ∈ diffFields old f, pyGet old fv.1 ≠ fv.2 := by
  intro fv hfv
  have h := (List.mem_filter.mp hfv).2
  simpa using h

theorem mem_existingDict (hashRec : Rec → ℤ) (pairs : List (String × Rec)) (label : String) :
    ∀ e ∈ existingDict hashRec pairs label, e.2 ∈ pairs ∧ catEq e.2.2 label = true := by
  intro e he
  have hm := mem_buildDict _ _ he
  obtain ⟨q, hq, hqe⟩ := List.mem_map.mp hm
  obtain ⟨hqp, hqc⟩ := List.mem_filter.mp hq
  subst hqe
  exact ⟨hqp, hqc⟩

theorem mem_desiredDict (hashRec : Rec → ℤ) (allowed : List String) (scraped : List Rec)
    (label : String) :
    ∀ p ∈ desiredDict hashRec allowed scraped label,
      ∃ r ∈ scraped, catEq r label = true ∧
        p.2 = sanitize_record_for_airtable r allowed ∧ p.1 = unique_key hashRec r := by
  intro p hp
  have hm := mem_buildDict _ _ hp
  obtain ⟨r, hr, hre⟩ := List.mem_map.mp hm
  obtain ⟨hrs, hrc⟩ := List.mem_filter.mp hr
  subst hre
  exact ⟨r, hrs, hrc, rfl, rfl⟩

theorem filter_key_length_le_one {l : List (String × α)} (h : (l.map Prod.fst).Nodup)
    (k : String) : (l.filter (fun p => p.1 == k)).length ≤ 1 := by
  induction l with
  | nil => simp
  | cons q rest ih =>
    obtain ⟨qk, qv⟩ := q
    simp only [List.map_cons, List.nodup_cons] at h
    rw [List.filter_cons]
    by_cases hqk : qk = k
    · subst hqk
      have hrest : rest.filter (fun p => p.1 == qk) = [] := by
        rw [List.filter_eq_nil_iff]
        intro p hp hcon
        have hpk : p.1 = qk := by simpa using hcon
        exact h.1 (hpk ▸ List.mem_map.mpr ⟨p, hp, rfl⟩)
      simp [hrest]
    · simp only [beq_false_of_ne hqk]
      simpa using ih h.2

/-- C1: for one category, with `D` the desired dict and `E` the existing
dict the engine derives (both keyed by natural key, with provably duplicate
free key sets), `sync_category` emits exactly one create per key of `D`
absent from `E`, exactly one delete per key of `E` absent from `D`, and for
a key in both an update exactly when the field diff is nonempty, the update
carrying precisely the changed fields; when every shared key diffs empty,
no update is emitted.  The `keyFieldsOk` hypotheses restrict to inputs on
which the Python code runs to completion (a non-string `Objektnummer` or
`Webseite` would raise inside `unique_key`). -/
theorem c1_sync_engine_counts (hashRec : Rec → ℤ) (allowed : List String)
    (pairs : List (String × Rec)) (scraped : List Rec) (label : String)
    (hks : ∀ r ∈ scraped, keyFieldsOk r = true)
    (hkp : ∀ p ∈ pairs, keyFieldsOk p.2 = true) :
    let E := existingDict hashRec pairs label
    let D := desiredDict hashRec allowed scraped label
    let ops := sync_category hashRec allowed pairs scraped label
    (D.map Prod.fst).Nodup ∧
    (E.map Prod.fst).Nodup ∧
    ops.1.length = (D.filter (fun p => (List.lookup p.1 E).isNone)).length ∧
    ops.2.2.length = (E.filter (fun e => (List.lookup e.1 D).isNone)).length ∧
    ops.2.1 = (keyedUpdates E D).map Prod.snd ∧
    (∀ k f rid old, List.lookup k D = some f → List.lookup k E = some (rid, old) →
      List.lookup k (keyedUpdates E D) =
        if diffFields old f = [] then none else some (rid, diffFields old f)) ∧
    (∀ u ∈ keyedUpdates E D, u.2.2 ≠ [] ∧ ∀ fv ∈ u.2.2,
      ∃ old, List.lookup u.1 E = some (u.2.1, old) ∧ pyGet old fv.1 ≠ fv.2) ∧
    ((∀ k f rid old, List.lookup k D = some f → List.lookup k E = some (rid, old) →
        diffFields old f = []) → ops.2.1 = []) := by
  intro E D ops
  have hspec := sync_category_spec hashRec allowed pairs scraped label
  have hDn : (D.map Prod.fst).Nodup := keys_buildDict_nodup _
  have hEn : (E.map Prod.fst).Nodup := keys_buildDict_nodup _
  refine ⟨hDn, hEn, ?_, ?_, ?_, ?_, ?_, ?_⟩
  · show ops.1.length = _
    rw [show ops.1 = List.map Prod.snd (D.filter
      (fun p => (List.lookup p.1 E).isNone)) from congrArg Prod.fst hspec]
    exact List.length_map _ _
  · rw [show ops.2.2 = List.map (fun e => e.2.1) (E.filter
      (fun e => (List.lookup e.1 D).isNone)) from congrArg (fun t => t.2.2) hspec]
    exact List.length_map _ _
  · exact congrArg (fun t => t.2.1) hspec
  · intro k f rid old hkD hkE
    exact lookup_keyedUpdates E D hDn k f rid old hkD hkE
  · intro u hu
    obtain ⟨p, hp, hu1, old, hE, hu2, hdne⟩ := keys_keyedUpdates E D u hu
    refine ⟨by rw [hu2]; exact hdne, ?_⟩
    intro fv hfv
    rw [hu2] at hfv
    exact ⟨old, by rw [hu1, hE], diffFields_ne old p.2 fv hfv⟩
  · intro hall
    rw [show ops.2.1 = (keyedUpdates E D).map Prod.snd from congrArg (fun t => t.2.1) hspec]
    have hempty : keyedUpdates E D = [] := by
      cases hke : keyedUpdates E D with
      | nil => rfl
      | cons u us =>
        exfalso
        have hu : u ∈ keyedUpdates E D := by rw [hke]; exact List.mem_cons_self u us
        obtain ⟨p, hp, hu1, old, hE, hu2, hdne⟩ := keys_keyedUpdates E D u hu
        have hlk : List.lookup p.1 D = some p.2 := lookup_of_mem_nodup hDn hp
        exact hdne (hall p.1 p.2 u.2.1 old hlk hE)
    rw [hempty]
    rfl

/-- C1 witness: the concrete scenario of one create, one update and one
delete, instantiating the theorem. -/
theorem c1_sync_engine_counts_witness :
    (∀ r ∈ ([[("Kategorie", FVal.str "Kaufen"), ("Objektnummer", FVal.str "4220"),
              ("Preis", FVal.num (Dec.ofInt 479000))],
             [("Kategorie", FVal.str "Kaufen"), ("Objektnummer", FVal.str "7777")]] :
        List Rec), keyFieldsOk r = true) ∧
    (sync_category (fun _ => 0) []
      [("r1", [("Kategorie", FVal.str "Kaufen"), ("Objektnummer", FVal.str "4220"),
               ("Preis", FVal.num (Dec.ofInt 450000))]),
       ("r2", [("Kategorie", FVal.str "Kaufen"), ("Objektnummer", FVal.str "9999")])]
      [[("Kategorie", FVal.str "Kaufen"), ("Objektnummer", FVal.str "4220"),
        ("Preis", FVal.num (Dec.ofInt 479000))],
       [("Kategorie", FVal.str "Kaufen"), ("Objektnummer", FVal.str "7777")]]
      "Kaufen").1.length =
      ((desiredDict (fun _ => 0) []
        [[("Kategorie", FVal.str "Kaufen"), ("Objektnummer", FVal.str "4220"),
          ("Preis", FVal.num (Dec.ofInt 479000))],
         [("Kategorie", FVal.str "Kaufen"), ("Objektnummer", FVal.str "7777")]]
        "Kaufen").filter (fun p => (List.lookup p.1 (existingDict (fun _ => 0)
          [("r1", [("Kategorie", FVal.str "Kaufen"), ("Objektnummer", FVal.str "4220"),
                   ("Preis", FVal.num (Dec.ofInt 450000))]),
           ("r2", [("Kategorie", FVal.str "Kaufen"), ("Objektnummer", FVal.str "9999")])]
          "Kaufen")).isNone)).length :=
  ⟨by decide,
   (c1_sync_engine_counts (fun _ => 0) []
      [("r1", [("Kategorie", FVal.str "Kaufen"), ("Objektnummer", FVal.str "4220"),
               ("Preis", FVal.num (Dec.ofInt 450000))]),
       ("r2", [("Kategorie", FVal.str "Kaufen"), ("Objektnummer", FVal.str "9999")])]
      [[("Kategorie", FVal.str "Kaufen"), ("Objektnummer", FVal.str "4220"),
        ("Preis", FVal.num (Dec.ofInt 479000))],
       [("Kategorie", FVal.str "Kaufen"), ("Objektnummer", FVal.str "7777")]]
      "Kaufen" (by decide) (by decide)).2.2.1⟩

/-- C2 counterexample: when the allowed-field set learned from the remote
table omits `Kategorie` (here it is `{"Titel"}`), the single emitted create
does not carry the run's category at all — refuting the clause "created
records carry the run's category" of the claim. -/
theorem c2_counterexample :
    (sync_category (fun _ => 0) ["Titel"] []
      [[("Kategorie", FVal.str "Kaufen"), ("Titel", FVal.str "T"),
        ("Objektnummer", FVal.str "1")]] "Kaufen").1 = [[("Titel", FVal.str "T")]] ∧
    lookupF [("Titel", FVal.str "T")] "Kategorie" = none := by
  decide

/-- C2 (amended): a sync run scoped to one category never touches a remote
record carrying a different category label — every deleted id and every
update id belongs to a remote record whose `Kategorie` equals the run's
label, and a created record carries either the run's label or no category at
all, the latter only when the allowed-field filter is active and omits
`Kategorie`; when the filter is empty or lists `Kategorie`, every create
carries the run's label. -/
theorem c2_category_isolation (hashRec : Rec → ℤ) (allowed : List String)
    (pairs : List (String × Rec)) (scraped : List Rec) (label : String)
    (hks : ∀ r ∈ scraped, keyFieldsOk r = true)
    (hkp : ∀ p ∈ pairs, keyFieldsOk p.2 = true) :
    let ops := sync_category hashRec allowed pairs scraped label
    (∀ id ∈ ops.2.2, ∃ f, (id, f) ∈ pairs ∧ catEq f label = true) ∧
    (∀ u ∈ ops.2.1, ∃ f, (u.1, f) ∈ pairs ∧ catEq f label = true) ∧
    (∀ c ∈ ops.1, lookupF c "Kategorie" = some (FVal.str label) ∨
      lookupF c "Kategorie" = none) ∧
    ((allowed = [] ∨ "Kategorie" ∈ allowed) →
      ∀ c ∈ ops.1, lookupF c "Kategorie" = some (FVal.str label)) := by
  intro ops
  have hspec := sync_category_spec hashRec allowed pairs scraped label
  have hcreate : ∀ c ∈ ops.1, ∃ r ∈ scraped, catEq r label = true ∧
      c = sanitize_record_for_airtable r allowed := by
    intro c hc
    rw [show ops.1 = List.map Prod.snd ((desiredDict hashRec allowed scraped label).filter
      (fun p => (List.lookup p.1 (existingDict hashRec pairs label)).isNone))
      from congrArg Prod.fst hspec] at hc
    obtain ⟨p, hp, hpe⟩ := List.mem_map.mp hc
    obtain ⟨r, hr, hrc, hps, -⟩ :=
      mem_desiredDict hashRec allowed scraped label p (List.mem_filter.mp hp).1
    exact ⟨r, hr, hrc, by rw [← hpe, hps]⟩
  have hcatKat : ∀ r : Rec, catEq r label = true →
      lookupF r "Kategorie" = some (FVal.str label) := by
    intro r hr
    unfold catEq at hr
    cases hl : lookupF r "Kategorie" with
    | none => rw [hl] at hr; simp at hr
    | some v =>
      rw [hl] at hr
      cases v with
      | str s =>
        have : s = label := by simpa using hr
        rw [this]
      | num d => simp at hr
      | none_ => simp at hr
  refine ⟨?_, ?_, ?_, ?_⟩
  · intro id hid
    rw [show ops.2.2 = List.map (fun e => e.2.1)
      ((existingDict hashRec pairs label).filter
        (fun e => (List.lookup e.1 (desiredDict hashRec allowed scraped label)).isNone))
      from congrArg (fun t => t.2.2) hspec] at hid
    obtain ⟨e, he, hee⟩ := List.mem_map.mp hid
    obtain ⟨hep, hec⟩ :=
      mem_existingDict hashRec pairs label e (List.mem_filter.mp he).1
    exact ⟨e.2.2, by rw [← hee]; exact hep, hec⟩
  · intro u hu
    rw [show ops.2.1 = (keyedUpdates (existingDict hashRec pairs label)
        (desiredDict hashRec allowed scraped label)).map Prod.snd
      from congrArg (fun t => t.2.1) hspec] at hu
    obtain ⟨q, hq, hqe⟩ := List.mem_map.mp hu
    obtain ⟨p, hp, hq1, old, hE, hq2, -⟩ :=
      keys_keyedUpdates (existingDict hashRec pairs label)
        (desiredDict hashRec allowed scraped label) q hq
    have hmemE : (p.1, (q.2.1, old)) ∈ existingDict hashRec pairs label := by
      rw [← hq1]
      exact mem_of_lookup_eq_some (by rw [hq1]; exact hE)
    obtain ⟨hep, hec⟩ := mem_existingDict hashRec pairs label _ hmemE
    refine ⟨old, ?_, hec⟩
    rw [← hqe]
    simpa using hep
  · intro c hc
    obtain ⟨r, hr, hrc, hce⟩ := hcreate c hc
    have hKat := hcatKat r hrc
    have hsan := sanitize_Kategorie r allowed (FVal.str label) hKat
    rw [hce]
    exact hsan.1
  · intro hall c hc
    obtain ⟨r, hr, hrc, hce⟩ := hcreate c hc
    have hKat := hcatKat r hrc
    have hsan := sanitize_Kategorie r allowed (FVal.str label) hKat
    rw [hce]
    exact hsan.2 hall

/-- C2 witness: in the concrete one-category scenario with an empty
allowed-field set, the emitted create carries the run's category. -/
theorem c2_category_isolation_witness :
    ((([] : List String) = [] ∨ "Kategorie" ∈ ([] : List String)) ∧
     (∀ r ∈ ([[("Kategorie", FVal.str "Kaufen"), ("Objektnummer", FVal.str "7777")]] :
        List Rec), keyFieldsOk r = true)) ∧
    (∀ c ∈ (sync_category (fun _ => 0) [] []
        [[("Kategorie", FVal.str "Kaufen"), ("Objektnummer", FVal.str "7777")]]
        "Kaufen").1,
      lookupF c "Kategorie" = some (FVal.str "Kaufen")) :=
  ⟨⟨Or.inl rfl, by decide⟩,
   (c2_category_isolation (fun _ => 0) [] []
      [[("Kategorie", FVal.str "Kaufen"), ("Objektnummer", FVal.str "7777")]]
      "Kaufen" (by decide) (by decide)).2.2.2 (Or.inl rfl)⟩

/-- C10: the desired dict has duplicate-free keys, so per natural key the
engine emits at most one create-or-update, and a key occurring in several
scraped records takes the sanitized fields of the last one processed. -/
theorem c10_duplicate_keys_collapse (hashRec : Rec → ℤ) (allowed : List String)
    (pairs : List (String × Rec)) (scraped : List Rec) (label : String)
    (hks : ∀ r ∈ scraped, keyFieldsOk r = true)
    (hkp : ∀ p ∈ pairs, keyFieldsOk p.2 = true) :
    let E := existingDict hashRec pairs label
    let D := desiredDict hashRec allowed scraped label
    let ops := sync_category hashRec allowed pairs scraped label
    (D.map Prod.fst).Nodup ∧
    (∀ k, List.lookup k D =
      ((scraped.filter (fun r => catEq r label)).reverse.find?
        (fun r => unique_key hashRec r == k)).map
        (fun r => sanitize_record_for_airtable r allowed)) ∧
    ops.1 = (D.filter (fun p => (List.lookup p.1 E).isNone)).map Prod.snd ∧
    ops.2.1 = (keyedUpdates E D).map Prod.snd ∧
    (∀ k, (D.filter (fun p => p.1 == k && (List.lookup p.1 E).isNone)).length +
      ((keyedUpdates E D).filter (fun q => q.1 == k)).length ≤ 1) := by
  intro E D ops
  have hspec := sync_category_spec hashRec allowed pairs scraped label
  have hDn : (D.map Prod.fst).Nodup := keys_buildDict_nodup _
  refine ⟨hDn, ?_, congrArg Prod.fst hspec, congrArg (fun t => t.2.1) hspec, ?_⟩
  · intro k
    show List.lookup k (buildDict _) = _
    rw [lookup_buildDict]
    rw [← List.map_reverse, List.find?_map, Option.map_map]
    rfl
  · intro k
    have hkeyed : (keyedUpdates E D).filter (fun q => q.1 == k) =
        (D.filter (fun p => p.1 == k)).filterMap (fun p =>
          match List.lookup p.1 E with
          | some (rid, old) =>
            let d := diffFields old p.2
            if d = [] then none else some (p.1, (rid, d))
          | none => none) := by
      unfold keyedUpdates
      rw [List.filter_filterMap, List.filterMap_filter]
      refine List.filterMap_congr ?_
      intro p _
      cases hE : List.lookup p.1 E with
      | none => simp
      | some ro =>
        obtain ⟨rid, old⟩ := ro
        by_cases hd : diffFields old p.2 = []
        · simp [hd]
        · by_cases hk : p.1 = k
          · simp [hd, hk, Option.filter]
          · simp [hd, beq_false_of_ne hk, Option.filter]
    have hone := filter_key_length_le_one hDn k
    have hcomm : D.filter (fun p => p.1 == k && (List.lookup p.1 E).isNone) =
        (D.filter (fun p => p.1 == k)).filter
          (fun p => (List.lookup p.1 E).isNone) := by
      rw [List.filter_filter]
      exact List.filter_congr (fun p _ => by rw [Bool.and_comm])
    cases hL : D.filter (fun p => p.1 == k) with
    | nil =>
      have h1 : D.filter (fun p => p.1 == k && (List.lookup p.1 E).isNone) = [] := by
        rw [hcomm, hL]
        rfl
      rw [h1, hkeyed, hL]
      simp
    | cons p ps =>
      have hps : ps = [] := by
        rw [hL] at hone
        simpa using List.length_eq_zero.mp (by simpa using hone)
      subst hps
      have h1 : D.filter (fun p => p.1 == k && (List.lookup p.1 E).isNone) =
          [p].filter (fun p => (List.lookup p.1 E).isNone) := by
        rw [hcomm, hL]
      rw [h1, hkeyed, hL]
      cases hE : List.lookup p.1 E with
      | none => simp [List.filter_cons, hE]
      | some ro =>
        obtain ⟨rid, old⟩ := ro
        by_cases hd : diffFields old p.2 = []
        · simp [List.filter_cons, hE, hd]
        · simp [List.filter_cons, hE, hd]

/-- C10 witness: two scraped records with the same natural key collapse to a
single create holding the later record's fields. -/
theorem c10_duplicate_keys_collapse_witness :
    (∀ r ∈ ([[("Kategorie", FVal.str "Kaufen"), ("Objektnummer", FVal.str "5"),
              ("Titel", FVal.str "first")],
             [("Kategorie", FVal.str "Kaufen"), ("Objektnummer", FVal.str "5"),
              ("Titel", FVal.str "second")]] : List Rec), keyFieldsOk r = true) ∧
    List.lookup "obj:5" (desiredDict (fun _ => 0) []
      [[("Kategorie", FVal.str "Kaufen"), ("Objektnummer", FVal.str "5"),
        ("Titel", FVal.str "first")],
       [("Kategorie", FVal.str "Kaufen"), ("Objektnummer", FVal.str "5"),
        ("Titel", FVal.str "second")]] "Kaufen") =
      (((([[("Kategorie", FVal.str "Kaufen"), ("Objektnummer", FVal.str "5"),
            ("Titel", FVal.str "first")],
           [("Kategorie", FVal.str "Kaufen"), ("Objektnummer", FVal.str "5"),
            ("Titel", FVal.str "second")]] : List Rec).filter
          (fun r => catEq r "Kaufen")).reverse.find?
        (fun r => unique_key (fun _ => 0) r == "obj:5")).map
        (fun r => sanitize_record_for_airtable r [])) :=
  ⟨by decide,
   (c10_duplicate_keys_collapse (fun _ => 0) [] []
      [[("Kategorie", FVal.str "Kaufen"), ("Objektnummer", FVal.str "5"),
        ("Titel", FVal.str "first")],
       [("Kategorie", FVal.str "Kaufen"), ("Objektnummer", FVal.str "5"),
        ("Titel", FVal.str "second")]] "Kaufen" (by decide) (by decide)).2.1 "obj:5"⟩

/-- C8 counterexample: the title "unverkauft" contains the substring
"verkauft" (case-insensitively), yet the scrape loop keeps the listing,
because the source filters with `\bverkauft\b` and the word boundary fails
inside "unverkauft" — so the record does reach the scraped set handed to the
sync engine. -/
theorem c8_counterexample :
    containsCI "unverkauft".data "verkauft".data = true ∧
    collectRows (fun _ => "")
      [⟨"unverkauft", "https://x", "", "1", "", "", "", "Kaufen"⟩] =
      [make_record "" ⟨"unverkauft", "https://x", "", "1", "", "", "", "Kaufen"⟩] ∧
    make_record "" ⟨"unverkauft", "https://x", "", "1", "", "", "", "Kaufen"⟩ ≠ [] := by
  refine ⟨by decide, ?_, by decide⟩
  rfl

/-- C8 (amended): the scrape loop excludes exactly the listings whose title
matches `\bverkauft\b` case-insensitively (the whole word, not every
substring occurrence); every record reaching the sync engine comes from a
row without such a word match. -/
theorem c8_verkauft_word_filter (gen : Row → String) (rows : List Row) :
    collectRows gen rows =
      (rows.filter (fun r => !verkauftHit r.Titel.data)).map
        (fun r => make_record (gen r) r) := by
  induction rows with
  | nil => rfl
  | cons r rest ih =>
    unfold collectRows
    rw [List.filter_cons]
    cases hv : verkauftHit r.Titel.data with
    | true => simpa [hv] using ih
    | false => simpa [hv] using ih

/-- C9: a flattened page text that is a bare digit sequence with no currency
symbol at all still yields a price from the global-maximum fallback — here
"500", below the 10000 threshold that the strict-top strategy (and only that
strategy) applies, returns "500 €" — confirming the currency sign of
`RE_EUR_ANY` is optional and the final fallback has no plausibility
threshold. -/
theorem c9_global_fallback :
    extract_price ⟨[], [], [], []⟩ "500".data = "500 €".data ∧
    (∀ c ∈ "500".data, c ≠ '€' ∧ c ≠ 'E' ∧ c ≠ 'U' ∧ c ≠ 'R') ∧
    Dec.ltD (toFloatKey "500".data) (Dec.ofInt 10000) = true ∧
    extract_price_strict_top "500".data = [] := by
  decide

/-- C3 counterexample: on a page carrying both an embedded schema.org offer
(price 100000) and a labeled `Kaufpreis` definition-list entry (200.000 €),
`extract_price` returns the offer's price — the embedded-structured-data
strategy runs first, not third, and no identifier-proximity strategy exists
in this version at all. -/
theorem c3_counterexample :
    extract_price
      ⟨[some (.jobj (.cons "@type" (.jstr "Offer") (.cons "price" (.jstr "100000") .nil)))],
       [("Kaufpreis".data, some "200.000 €".data)], [], []⟩ [] = "100.000 €".data ∧
    extract_price_dom
      ⟨[some (.jobj (.cons "@type" (.jstr "Offer") (.cons "price" (.jstr "100000") .nil)))],
       [("Kaufpreis".data, some "200.000 €".data)], [], []⟩ = "200.000 €".data ∧
    "100.000 €".data ≠ "200.000 €".data := by
  decide

/-- C3 (amended): `extract_price` is an ordered fallback cascade whose first
successful strategy wins, but the order is: embedded schema.org offer
metadata first, the labeled DOM search (definition lists, table rows, list
items) second, the threshold-filtered text scan third, and the global
maximum of all currency tokens last. -/
theorem c3_cascade_order (s : PSoup) (t : List Char) :
    (extract_price_from_jsonld s.scripts ≠ [] →
      extract_price s t = extract_price_from_jsonld s.scripts) ∧
    (extract_price_from_jsonld s.scripts = [] → extract_price_dom s ≠ [] →
      extract_price s t = extract_price_dom s) ∧
    (extract_price_from_jsonld s.scripts = [] → extract_price_dom s = [] →
      extract_price_strict_top t ≠ [] → extract_price s t = extract_price_strict_top t) := by
  refine ⟨?_, ?_, ?_⟩
  · intro h1
    simp only [extract_price]
    rw [if_pos h1]
  · intro h1 h2
    simp only [extract_price]
    rw [if_neg (fun hc => hc h1), if_pos h2]
  · intro h1 h2 h3
    simp only [extract_price]
    rw [if_neg (fun hc => hc h1), if_neg (fun hc => hc h2), if_pos h3]

/-- C3 witness: the amended cascade order applied to the counterexample
page, whose embedded offer wins. -/
theorem c3_cascade_order_witness :
    extract_price_from_jsonld
      [some (.jobj (.cons "@type" (.jstr "Offer") (.cons "price" (.jstr "100000") .nil)))]
      ≠ [] ∧
    extract_price
      ⟨[some (.jobj (.cons "@type" (.jstr "Offer") (.cons "price" (.jstr "100000") .nil)))],
       [("Kaufpreis".data, some "200.000 €".data)], [], []⟩ [] =
      extract_price_from_jsonld
        [some (.jobj (.cons "@type" (.jstr "Offer") (.cons "price" (.jstr "100000") .nil)))] :=
  ⟨by decide,
   (c3_cascade_order
      ⟨[some (.jobj (.cons "@type" (.jstr "Offer") (.cons "price" (.jstr "100000") .nil)))],
       [("Kaufpreis".data, some "200.000 €".data)], [], []⟩ []).1 (by decide)⟩

/-! ### Character and list lemmas for the number-normalization claims -/

theorem not_ws_of_digit {c : Char} (h : isDigitC c = true) : isPyWs c = false := by
  cases hw : isPyWs c with
  | false => rfl
  | true =>
    exfalso
    simp only [isPyWs, isThinSpace, Bool.or_eq_true, decide_eq_true_eq] at hw
    rcases hw with (((((rfl | rfl) | rfl) | rfl) | rfl) | rfl) | ((rfl | rfl) | rfl) <;>
      exact absurd h (by decide)

theorem not_thin_of_digit {c : Char} (h : isDigitC c = true) : isThinSpace c = false := by
  cases hw : isThinSpace c with
  | false => rfl
  | true =>
    exfalso
    simp only [isThinSpace, Bool.or_eq_true, decide_eq_true_eq] at hw
    rcases hw with (rfl | rfl) | rfl <;> exact absurd h (by decide)

theorem digit_ne {c : Char} (h : isDigitC c = true) (x : Char) (hx : isDigitC x = false) :
    c ≠ x := by
  intro hc
  rw [hc, hx] at h
  cases h

theorem dropWhile_eq_self_of_all {l : List Char} {p : Char → Bool}
    (h : ∀ c ∈ l, p c = false) : l.dropWhile p = l := by
  cases l with
  | nil => rfl
  | cons c rest =>
    rw [List.dropWhile_cons, h c (by simp)]
    simp

theorem pyStrip_eq_self {l : List Char} (h : ∀ c ∈ l, isPyWs c = false) : pyStrip l = l := by
  unfold pyStrip
  rw [dropWhile_eq_self_of_all h,
      dropWhile_eq_self_of_all (fun c hc => h c (List.mem_reverse.mp hc)),
      List.reverse_reverse]

theorem takeWhile_eq_self_of_all {l : List Char} {p : Char → Bool}
    (h : ∀ c ∈ l, p c = true) : l.takeWhile p = l := by
  induction l with
  | nil => rfl
  | cons c rest ih =>
    rw [List.takeWhile_cons, h c (by simp), ih (fun x hx => h x (by simp [hx]))]
    simp

theorem takeWhile_eq_nil_of_head {l : List Char} {p : Char → Bool}
    (h : ∀ c ∈ l, p c = false) : l.takeWhile p = [] := by
  cases l with
  | nil => rfl
  | cons c rest =>
    rw [List.takeWhile_cons, h c (by simp)]
    rfl

theorem takeWhile_append_stop {p : Char → Bool} {xs ys : List Char} {y : Char}
    (hx : ∀ c ∈ xs, p c = true) (hy : p y = false) :
    (xs ++ y :: ys).takeWhile p = xs := by
  induction xs with
  | nil =>
    simp only [List.nil_append, List.takeWhile_cons, hy]
    rfl
  | cons c rest ih =>
    simp only [List.cons_append, List.takeWhile_cons, hx c (by simp)]
    rw [ih (fun x hx2 => hx x (by simp [hx2]))]
    simp

theorem contains_of_mem {l : List Char} {c : Char} (h : c ∈ l) : l.contains c = true := by
  simp only [List.contains_eq_any_beq, List.any_eq_true]
  exact ⟨c, h, by simp⟩

theorem contains_of_not_mem {l : List Char} {c : Char} (h : c ∉ l) : l.contains c = false := by
  simp only [List.contains_eq_any_beq, List.any_eq_false]
  intro x hx hbeq
  exact h (by rwa [show c = x from by simpa using hbeq])

theorem map_commaDot_eq_self {l : List Char} (h : ∀ c ∈ l, c ≠ ',') :
    l.map (fun c => if c = ',' then '.' else c) = l := by
  induction l with
  | nil => rfl
  | cons c rest ih =>
    simp only [List.map_cons, if_neg (h c (by simp))]
    rw [ih (fun x hx => h x (by simp [hx]))]

theorem natVal_append00 (z : List Char) : natVal (z ++ '0' :: '0' :: []) = 100 * natVal z := by
  unfold natVal
  rw [List.foldl_append]
  show 10 * (10 * _ + ('0'.toNat - 48)) + ('0'.toNat - 48) = _
  have h0 : '0'.toNat - 48 = 0 := rfl
  rw [h0]
  ring

theorem canonDec_hundred (m : ℕ) : canonDec ((100 * m : ℕ) : ℤ) 2 = ⟨(m : ℤ), 0⟩ := by
  have h1 : ((100 * m : ℕ) : ℤ) = 10 * (10 * (m : ℤ)) := by push_cast; ring
  rw [h1]
  have e1 : (10 * ((10 : ℤ) * m)) % 10 = 0 := Int.mul_emod_right 10 _
  have e2 : (10 * ((10 : ℤ) * m)) / 10 = 10 * m := Int.mul_ediv_cancel_left _ (by norm_num)
  have e3 : ((10 : ℤ) * m) % 10 = 0 := Int.mul_emod_right 10 _
  have e4 : ((10 : ℤ) * m) / 10 = (m : ℤ) := Int.mul_ediv_cancel_left _ (by norm_num)
  simp [canonDec, e1, e2, e3, e4]

/-- Value of `float()` on a bare digit string. -/
theorem parseFloatD_digits {l : List Char} (hne : l ≠ [])
    (hd : ∀ c ∈ l, isDigitC c = true) :
    parseFloatD l = some ⟨(natVal l : ℤ), 0⟩ := by
  obtain ⟨c, rest, rfl⟩ := List.exists_cons_of_ne_nil hne
  have hcd := hd c (by simp)
  have hm : ¬ ((c :: rest).head? = some '-' ∨ (c :: rest).head? = some '+') := by
    rintro (hx | hx)
    · exact digit_ne hcd '-' (by decide) (by simpa using hx)
    · exact digit_ne hcd '+' (by decide) (by simpa using hx)
  have hmneg : ¬ ((c :: rest).head? = some '-') := fun hx => hm (Or.inl hx)
  simp only [parseFloatD]
  rw [pyStrip_eq_self (fun x hx => not_ws_of_digit (hd x hx))]
  rw [if_neg hm]
  rw [takeWhile_eq_self_of_all hd]
  rw [List.drop_length]
  rw [if_pos rfl]
  rw [if_neg (List.cons_ne_nil c rest)]
  rw [decide_eq_false hmneg]
  rfl

/-- Value of `float()` on a digit string followed by ".00". -/
theorem parseFloatD_digits_dot00 {l : List Char} (hne : l ≠ [])
    (hd : ∀ c ∈ l, isDigitC c = true) :
    parseFloatD (l ++ '.' :: '0' :: '0' :: []) = some ⟨(natVal l : ℤ), 0⟩ := by
  obtain ⟨c, rest, rfl⟩ := List.exists_cons_of_ne_nil hne
  have hcd := hd c (by simp)
  have hall : ∀ x ∈ (c :: rest) ++ '.' :: '0' :: '0' :: [], isPyWs x = false := by
    intro x hx
    rcases List.mem_append.mp hx with h | h
    · exact not_ws_of_digit (hd x h)
    · simp only [List.mem_cons, List.not_mem_nil, or_false] at h
      rcases h with rfl | rfl | rfl <;> decide
  have hm : ¬ (((c :: rest) ++ '.' :: '0' :: '0' :: []).head? = some '-' ∨
      ((c :: rest) ++ '.' :: '0' :: '0' :: []).head? = some '+') := by
    simp only [List.cons_append, List.head?_cons]
    rintro (hx | hx)
    · exact digit_ne hcd '-' (by decide) (by simpa using hx)
    · exact digit_ne hcd '+' (by decide) (by simpa using hx)
  have hmneg : ¬ (((c :: rest) ++ '.' :: '0' :: '0' :: []).head? = some '-') :=
    fun hx => hm (Or.inl hx)
  simp only [parseFloatD]
  rw [pyStrip_eq_self hall]
  rw [if_neg hm]
  rw [decide_eq_false hmneg]
  rw [takeWhile_append_stop hd (by decide)]
  rw [List.drop_left]
  rw [if_neg (by simp : ¬ ('.' :: '0' :: '0' :: [] : List Char) = [])]
  have hhd : ('.' :: '0' :: '0' :: [] : List Char).head? = some '.' := rfl
  rw [if_pos hhd]
  have hd2 : (('.' :: '0' :: '0' :: [] : List Char).drop 1).takeWhile isDigitC =
      '0' :: '0' :: [] := rfl
  rw [hd2]
  rw [if_neg (by decide :
    ¬ (('.' :: '0' :: '0' :: [] : List Char).drop 1).drop
        (('0' :: '0' :: [] : List Char)).length ≠ [])]
  rw [if_neg (by rintro ⟨h1, -⟩; exact List.cons_ne_nil c rest h1)]
  rw [natVal_append00]
  have hlen : (('0' :: '0' :: [] : List Char)).length = 2 := rfl
  rw [hlen]
  exact congrArg some (canonDec_hundred (natVal (c :: rest)))

theorem filter_dot_digits {l : List Char} (hd : ∀ c ∈ l, isDigitC c = true) :
    l.filter (fun c => c ≠ '.') = l :=
  List.filter_eq_self.mpr (fun c hc => decide_eq_true (digit_ne (hd c hc) '.' (by decide)))

theorem map_commaDot_digits {l : List Char} (hd : ∀ c ∈ l, isDigitC c = true) :
    l.map (fun c => if c = ',' then '.' else c) = l :=
  map_commaDot_eq_self (fun c hc => digit_ne (hd c hc) ',' (by decide))

/-- Normalization with both separators present: drop the periods, turn the
comma into the decimal point. -/
theorem normalize_both_sep {a b : List Char} (had : ∀ c ∈ a, isDigitC c = true)
    (hbd : ∀ c ∈ b, isDigitC c = true) :
    normalize_numstring (a ++ '.' :: b ++ ',' :: '0' :: '0' :: []) =
      a ++ b ++ '.' :: '0' :: '0' :: [] := by
  have hmt : ∀ c ∈ a ++ '.' :: b ++ ',' :: '0' :: '0' :: [],
      isDigitC c = true ∨ c = '.' ∨ c = ',' := by
    intro c hc
    rcases List.mem_append.mp hc with h | h
    · rcases List.mem_append.mp h with h2 | h2
      · exact Or.inl (had c h2)
      · rcases List.mem_cons.mp h2 with rfl | h3
        · exact Or.inr (Or.inl rfl)
        · exact Or.inl (hbd c h3)
    · rcases List.mem_cons.mp h with rfl | h2
      · exact Or.inr (Or.inr rfl)
      · rcases List.mem_cons.mp h2 with rfl | h3
        · exact Or.inl (by decide)
        · rcases List.mem_cons.mp h3 with rfl | h4
          · exact Or.inl (by decide)
          · simp at h4
  simp only [normalize_numstring]
  rw [if_neg (by simp)]
  rw [pyStrip_eq_self (fun c hc => by
    rcases hmt c hc with h | rfl | rfl
    · exact not_ws_of_digit h
    · decide
    · decide)]
  rw [List.filter_eq_self.mpr (fun c hc => by
    rcases hmt c hc with h | rfl | rfl
    · simp [not_thin_of_digit h]
    · decide
    · decide)]
  have hc1 : (a ++ '.' :: b ++ ',' :: '0' :: '0' :: []).contains ',' = true :=
    contains_of_mem (by simp)
  have hc2 : (a ++ '.' :: b ++ ',' :: '0' :: '0' :: []).contains '.' = true :=
    contains_of_mem (by simp)
  have hcond : ((a ++ '.' :: b ++ ',' :: '0' :: '0' :: []).contains ',' &&
      (a ++ '.' :: b ++ ',' :: '0' :: '0' :: []).contains '.') = true := by
    rw [hc1, hc2]
    rfl
  rw [if_pos hcond]
  rw [List.filter_append, List.filter_append, filter_dot_digits had]
  rw [show (('.' :: b).filter (fun c => c ≠ '.')) = b by
    rw [List.filter_cons]
    rw [if_neg (by simp)]
    exact filter_dot_digits hbd]
  rw [show ((',' :: '0' :: '0' :: [] : List Char).filter (fun c => c ≠ '.')) =
      ',' :: '0' :: '0' :: [] by decide]
  rw [List.map_append, List.map_append, map_commaDot_digits had, map_commaDot_digits hbd]
  rfl

/-- Normalization with only periods and a trailing three-digit group: the
periods are dropped. -/
theorem normalize_dot_only {a b : List Char} (ha : a ≠ [])
    (had : ∀ c ∈ a, isDigitC c = true) (hb3 : b.length = 3)
    (hbd : ∀ c ∈ b, isDigitC c = true) :
    normalize_numstring (a ++ '.' :: b) = a ++ b := by
  have hmt : ∀ c ∈ a ++ '.' :: b, isDigitC c = true ∨ c = '.' := by
    intro c hc
    rcases List.mem_append.mp hc with h | h
    · exact Or.inl (had c h)
    · rcases List.mem_cons.mp h with rfl | h
      · exact Or.inr rfl
      · exact Or.inl (hbd c h)
  have hbne : b ≠ [] := by
    intro h
    rw [h] at hb3
    simp at hb3
  simp only [normalize_numstring]
  rw [if_neg (by simp)]
  rw [pyStrip_eq_self (fun c hc => by
    rcases hmt c hc with h | rfl
    · exact not_ws_of_digit h
    · decide)]
  rw [List.filter_eq_self.mpr (fun c hc => by
    rcases hmt c hc with h | rfl
    · simp [not_thin_of_digit h]
    · decide)]
  have hnc : (a ++ '.' :: b).contains ',' = false := by
    refine contains_of_not_mem (fun hmem => ?_)
    rcases hmt ',' hmem with h | h
    · exact absurd h (by decide)
    · exact absurd h (by decide)
  have hdot : (a ++ '.' :: b).contains '.' = true := contains_of_mem (by simp)
  rw [if_neg (by rw [hnc]; simp)]
  rw [if_neg (by rw [hnc]; simp)]
  rw [if_pos (by rw [hdot])]
  have htw : List.takeWhile (fun c => decide (c ≠ '.')) (b.reverse ++ '.' :: a.reverse) =
      b.reverse :=
    takeWhile_append_stop
      (fun c hc => decide_eq_true (digit_ne (hbd c (List.mem_reverse.mp hc)) '.' (by decide)))
      (by decide)
  have hlast : lastAfterDot (a ++ '.' :: b) = b := by
    unfold lastAfterDot
    rw [List.reverse_append, List.reverse_cons]
    rw [List.append_assoc, List.singleton_append]
    rw [htw]
    exact List.reverse_reverse b
  rw [hlast]
  rw [if_pos (by
    rw [hb3]
    rw [decide_eq_true hbne, List.all_eq_true.mpr (fun c hc => hbd c hc)]
    rfl)]
  rw [List.filter_append, filter_dot_digits had, List.filter_cons]
  rw [if_neg (by simp)]
  rw [filter_dot_digits hbd]

/-- Normalization with only a comma: the comma becomes the decimal point. -/
theorem normalize_comma_only {a b : List Char} (had : ∀ c ∈ a, isDigitC c = true)
    (hbd : ∀ c ∈ b, isDigitC c = true) :
    normalize_numstring (a ++ b ++ ',' :: '0' :: '0' :: []) =
      a ++ b ++ '.' :: '0' :: '0' :: [] := by
  have hmt : ∀ c ∈ a ++ b ++ ',' :: '0' :: '0' :: [], isDigitC c = true ∨ c = ',' := by
    intro c hc
    rcases List.mem_append.mp hc with h | h
    · rcases List.mem_append.mp h with h2 | h2
      · exact Or.inl (had c h2)
      · exact Or.inl (hbd c h2)
    · rcases List.mem_cons.mp h with rfl | h3
      · exact Or.inr rfl
      · rcases List.mem_cons.mp h3 with rfl | h4
        · exact Or.inl (by decide)
        · rcases List.mem_cons.mp h4 with rfl | h5
          · exact Or.inl (by decide)
          · simp at h5
  simp only [normalize_numstring]
  rw [if_neg (by simp)]
  rw [pyStrip_eq_self (fun c hc => by
    rcases hmt c hc with h | rfl
    · exact not_ws_of_digit h
    · decide)]
  rw [List.filter_eq_self.mpr (fun c hc => by
    rcases hmt c hc with h | rfl
    · simp [not_thin_of_digit h]
    · decide)]
  have hcm : (a ++ b ++ ',' :: '0' :: '0' :: []).contains ',' = true :=
    contains_of_mem (by simp)
  have hnd : (a ++ b ++ ',' :: '0' :: '0' :: []).contains '.' = false := by
    refine contains_of_not_mem (fun hmem => ?_)
    rcases hmt '.' hmem with h | h
    · exact absurd h (by decide)
    · exact absurd h (by decide)
  rw [if_neg (by rw [hcm, hnd]; simp)]
  rw [if_pos (by rw [hcm])]
  rw [List.map_append, List.map_append, map_commaDot_digits had, map_commaDot_digits hbd]
  rfl

/-- C4 counterexample: `parse_price_to_number` maps `"479000,00"` to `0.0`,
not `479000.0` — the currency-token regex cannot match an unseparated
six-digit group, so the matched token is the `"00"` after the comma. -/
theorem c4_counterexample :
    parse_price_to_number "479000,00".data = some (Dec.ofInt 0) ∧
    Dec.ofInt 0 ≠ Dec.ofInt 479000 ∧
    searchEurNumber "479000,00".data = some "00".data := by
  decide

/-- C4 (amended): number normalization treats the separators exactly as
claimed — for digit groups `a` (1–3 digits) and `b` (3 digits), the three
supported renderings `a.b,00`, `a.b` and `ab,00` all normalize and parse to
the same numeric value — and `"479.000,00 €"` and `"479.000 €"` both parse
to 479000.0; but `"479000,00"` parses to 0.0, because `RE_EUR_NUMBER` only
matches 1–3 leading digits with period-separated 3-digit groups and so picks
the `"00"` after the comma instead of the whole number. -/
theorem c4_normalization_rules (a b : List Char) (ha : a ≠ []) (hal : a.length ≤ 3)
    (had : ∀ c ∈ a, isDigitC c = true) (hb3 : b.length = 3)
    (hbd : ∀ c ∈ b, isDigitC c = true) :
    (parseFloatD (normalize_numstring (a ++ '.' :: b ++ ',' :: '0' :: '0' :: [])) =
      some ⟨(natVal (a ++ b) : ℤ), 0⟩ ∧
     parseFloatD (normalize_numstring (a ++ '.' :: b)) = some ⟨(natVal (a ++ b) : ℤ), 0⟩ ∧
     parseFloatD (normalize_numstring (a ++ b ++ ',' :: '0' :: '0' :: [])) =
      some ⟨(natVal (a ++ b) : ℤ), 0⟩) ∧
    parse_price_to_number "479.000,00 €".data = some (Dec.ofInt 479000) ∧
    parse_price_to_number "479.000 €".data = some (Dec.ofInt 479000) ∧
    parse_price_to_number "479000,00".data = some (Dec.ofInt 0) := by
  have habd : ∀ c ∈ a ++ b, isDigitC c = true := by
    intro c hc
    rcases List.mem_append.mp hc with h | h
    · exact had c h
    · exact hbd c h
  have habne : a ++ b ≠ [] := by
    intro h
    rcases List.append_eq_nil.mp h with ⟨h1, -⟩
    exact ha h1
  refine ⟨⟨?_, ?_, ?_⟩, by decide, by decide, by decide⟩
  · rw [normalize_both_sep had hbd]
    exact parseFloatD_digits_dot00 habne habd
  · rw [normalize_dot_only ha had hb3 hbd]
    exact parseFloatD_digits habne habd
  · rw [normalize_comma_only had hbd]
    exact parseFloatD_digits_dot00 habne habd

/-- C4 witness: the rules instantiated at `a = "479"`, `b = "000"`. -/
theorem c4_normalization_rules_witness :
    (('4' :: '7' :: '9' :: [] : List Char) ≠ [] ∧
     ('4' :: '7' :: '9' :: [] : List Char).length ≤ 3 ∧
     ('0' :: '0' :: '0' :: [] : List Char).length = 3) ∧
    parseFloatD (normalize_numstring (('4' :: '7' :: '9' :: []) ++ '.' ::
        ('0' :: '0' :: '0' :: []) ++ ',' :: '0' :: '0' :: [])) =
      some ⟨(natVal (('4' :: '7' :: '9' :: []) ++ '0' :: '0' :: '0' :: []) : ℤ), 0⟩ :=
  ⟨⟨by decide, by decide, by decide⟩,
   (c4_normalization_rules ('4' :: '7' :: '9' :: []) ('0' :: '0' :: '0' :: [])
      (by decide) (by decide) (by decide) (by decide) (by decide)).1.1⟩

/-! ### No-digit lemmas: every price strategy misses on digit-free input -/

theorem mem_pyStrip {l : List Char} {c : Char} (h : c ∈ pyStrip l) : c ∈ l := by
  unfold pyStrip at h
  rw [List.mem_reverse] at h
  have h2 := (List.dropWhile_sublist _).subset h
  rw [List.mem_reverse] at h2
  exact (List.dropWhile_sublist _).subset h2

theorem parseFloatD_no_digit {cs : List Char} (h : ∀ c ∈ cs, isDigitC c = false) :
    parseFloatD cs = none := by
  have h1 : ∀ c ∈ pyStrip cs, isDigitC c = false := fun c hc => h c (mem_pyStrip hc)
  have h2 : ∀ c ∈ (if (pyStrip cs).head? = some '-' ∨ (pyStrip cs).head? = some '+'
      then (pyStrip cs).drop 1 else pyStrip cs), isDigitC c = false := by
    intro c hc
    split at hc
    · exact h1 c ((List.drop_sublist _ _).subset hc)
    · exact h1 c hc
  simp only [parseFloatD]
  generalize hgen : (if (pyStrip cs).head? = some '-' ∨ (pyStrip cs).head? = some '+'
      then (pyStrip cs).drop 1 else pyStrip cs) = l2 at h2 ⊢
  have hd1 : l2.takeWhile isDigitC = [] := takeWhile_eq_nil_of_head h2
  rw [hd1]
  simp only [List.length_nil, List.drop_zero]
  by_cases hl2 : l2 = []
  · simp [hl2]
  · rw [if_neg hl2]
    by_cases hdot : l2.head? = some '.'
    · rw [if_pos hdot]
      have hd2 : (l2.drop 1).takeWhile isDigitC = [] :=
        takeWhile_eq_nil_of_head (fun c hc => h2 c ((List.drop_sublist _ _).subset hc))
      rw [hd2]
      simp only [List.length_nil, List.drop_zero]
      by_cases hr2 : l2.drop 1 = []
      · simp [hr2]
      · simp [hr2]
    · rw [if_neg hdot]

theorem digitsRunAt_zero {cs : List Char} (h : ∀ c ∈ cs, isDigitC c = false) (i : ℕ) :
    digitsRunAt cs i = 0 := by
  unfold digitsRunAt
  rw [takeWhile_eq_nil_of_head (fun c hc => h c ((List.drop_sublist _ _).subset hc))]
  rfl

theorem matchNumAt_no_digit {cs : List Char} (h : ∀ c ∈ cs, isDigitC c = false) (i : ℕ) :
    matchNumAt cs i = none := by
  unfold matchNumAt
  cases hb : boundaryAt cs i
  · simp
  · simp [digitsRunAt_zero h]

theorem searchEurNumber_no_digit {cs : List Char} (h : ∀ c ∈ cs, isDigitC c = false) :
    searchEurNumber cs = none := by
  unfold searchEurNumber
  rw [List.findSome?_eq_none_iff]
  intro i _
  rw [matchNumAt_no_digit h i]
  rfl

theorem matchAnyAt_no_digit {cs : List Char} (h : ∀ c ∈ cs, isDigitC c = false) (i : ℕ) :
    matchAnyAt cs i = none := by
  unfold matchAnyAt
  cases hb : boundaryAt cs i
  · simp
  · simp [digitsRunAt_zero h]

theorem findAnyFrom_no_digit {cs : List Char} (h : ∀ c ∈ cs, isDigitC c = false) (p : ℕ) :
    findAnyFrom cs p = none := by
  unfold findAnyFrom
  rw [List.findSome?_eq_none_iff]
  intro i _
  rw [matchAnyAt_no_digit h i]
  rfl

theorem finditerAnyF_no_digit {cs : List Char} (h : ∀ c ∈ cs, isDigitC c = false) :
    ∀ fuel p, finditerAnyF cs p fuel = [] := by
  intro fuel
  induction fuel with
  | zero => intro p; rfl
  | succ n ih => intro p; unfold finditerAnyF; rw [findAnyFrom_no_digit h p]

theorem finditerAny_no_digit {cs : List Char} (h : ∀ c ∈ cs, isDigitC c = false) :
    finditerAny cs = [] :=
  finditerAnyF_no_digit h (cs.length + 1) 0

theorem strict_top_no_digit {page : List Char} (h : ∀ c ∈ page, isDigitC c = false) :
    extract_price_strict_top page = [] := by
  simp [extract_price_strict_top, finditerAny_no_digit h]

theorem clean_price_no_digit {raw : List Char} (h : ∀ c ∈ raw, isDigitC c = false) :
    clean_price_string raw = [] := by
  unfold clean_price_string
  rw [searchEurNumber_no_digit h]
  split <;> rfl

theorem noDig_cons {x : Char} {l : List Char} (hx : isDigitC x = false)
    (h : ∀ c ∈ l, isDigitC c = false) : ∀ c ∈ x :: l, isDigitC c = false := by
  intro c hc
  rcases List.mem_cons.mp hc with rfl | hc2
  · exact hx
  · exact h c hc2

theorem noDig_append {l1 l2 : List Char} (h1 : ∀ c ∈ l1, isDigitC c = false)
    (h2 : ∀ c ∈ l2, isDigitC c = false) : ∀ c ∈ l1 ++ l2, isDigitC c = false := by
  intro c hc
  rcases List.mem_append.mp hc with hc2 | hc2
  · exact h1 c hc2
  · exact h2 c hc2

mutual

theorem noDig_pyStrJ : ∀ v : JVal, noDigJ v = true → ∀ c ∈ pyStrJ v, isDigitC c = false
  | .jnull, _ => by decide
  | .jbool true, _ => by decide
  | .jbool false, _ => by decide
  | .jnum n, h => by simp [noDigJ] at h
  | .jstr s, h => fun c hc => by
      have h2 : s.data.all (fun c => !isDigitC c) = true := h
      simpa using List.all_eq_true.mp h2 c hc
  | .jarr xs, h =>
      noDig_cons (by decide) (noDig_append (noDig_pyStrJList xs h) (by decide))
  | .jobj fs, h =>
      noDig_cons (by decide) (noDig_append (noDig_pyStrJFields fs h) (by decide))

theorem noDig_pyReprJ : ∀ v : JVal, noDigJ v = true → ∀ c ∈ pyReprJ v, isDigitC c = false
  | .jnull, _ => by decide
  | .jbool true, _ => by decide
  | .jbool false, _ => by decide
  | .jnum n, h => by simp [noDigJ] at h
  | .jstr s, h =>
      noDig_cons (by decide) (noDig_append
        (fun c hc => by
          have h2 : s.data.all (fun c => !isDigitC c) = true := h
          simpa using List.all_eq_true.mp h2 c hc)
        (by decide))
  | .jarr xs, h =>
      noDig_cons (by decide) (noDig_append (noDig_pyStrJList xs h) (by decide))
  | .jobj fs, h =>
      noDig_cons (by decide) (noDig_append (noDig_pyStrJFields fs h) (by decide))

theorem noDig_pyStrJList : ∀ xs : JList, noDigJL xs = true →
    ∀ c ∈ pyStrJList xs, isDigitC c = false
  | .nil, _ => by intro c hc; simp [pyStrJList] at hc
  | .cons v .nil, h => by
      have h2 : (noDigJ v && noDigJL .nil) = true := h
      exact noDig_pyReprJ v ((Bool.and_eq_true _ _).mp h2).1
  | .cons v (.cons w rest), h => by
      have h2 : (noDigJ v && noDigJL (.cons w rest)) = true := h
      obtain ⟨hv, hr⟩ := (Bool.and_eq_true _ _).mp h2
      exact noDig_append (noDig_append (noDig_pyReprJ v hv) (by decide))
        (noDig_pyStrJList (.cons w rest) hr)

theorem noDig_pyStrJFields : ∀ fs : JFields, noDigJF fs = true →
    ∀ c ∈ pyStrJFields fs, isDigitC c = false
  | .nil, _ => by intro c hc; simp [pyStrJFields] at hc
  | .cons k v .nil, h => by
      have h2 : (k.data.all (fun c => !isDigitC c) && noDigJ v && noDigJF .nil) = true := h
      simp only [Bool.and_eq_true] at h2
      obtain ⟨⟨hk, hv⟩, -⟩ := h2
      have hk' : ∀ c ∈ k.data, isDigitC c = false := fun c hc => by
        simpa using List.all_eq_true.mp hk c hc
      exact noDig_append (noDig_append (noDig_cons (by decide) hk') (by decide))
        (noDig_pyReprJ v hv)
  | .cons k v (.cons k2 v2 rest), h => by
      have h2 : (k.data.all (fun c => !isDigitC c) && noDigJ v &&
          noDigJF (.cons k2 v2 rest)) = true := h
      simp only [Bool.and_eq_true] at h2
      obtain ⟨⟨hk, hv⟩, hr⟩ := h2
      have hk' : ∀ c ∈ k.data, isDigitC c = false := fun c hc => by
        simpa using List.all_eq_true.mp hk c hc
      exact noDig_append (noDig_append (noDig_append (noDig_append
        (noDig_cons (by decide) hk') (by decide)) (noDig_pyReprJ v hv)) (by decide))
        (noDig_pyStrJFields (.cons k2 v2 rest) hr)

end

theorem noDig_jget : ∀ fs : JFields, noDigJF fs = true →
    ∀ k v, jget fs k = some v → noDigJ v = true
  | .nil, _, k, v, hg => by simp [jget] at hg
  | .cons k' v' rest, h, k, v, hg => by
      simp only [noDigJF, Bool.and_eq_true] at h
      obtain ⟨⟨-, hv⟩, hr⟩ := h
      simp only [jget] at hg
      by_cases hk : k' = k
      · rw [if_pos hk] at hg
        rw [Option.some_inj] at hg
        exact hg ▸ hv
      · rw [if_neg hk] at hg
        exact noDig_jget rest hr k v hg

theorem noDig_getD {fs : JFields} (h : noDigJF fs = true) (k : String) :
    noDigJ ((jget fs k).getD .jnull) = true := by
  cases hg : jget fs k with
  | none => rfl
  | some v => exact noDig_jget fs h k v hg

theorem attemptFloatJ_none {v : JVal} (h : noDigJ v = true) : attemptFloatJ v = none := by
  unfold attemptFloatJ
  apply parseFloatD_no_digit
  intro c hc
  obtain ⟨c', hc', rfl⟩ := List.mem_map.mp hc
  have hnd := noDig_pyStrJ v h c' (List.mem_filter.mp hc').1
  by_cases hcm : c' = ','
  · rw [if_pos hcm]; decide
  · rw [if_neg hcm]; exact hnd

theorem keysTry_none {fs : JFields} (h : noDigJF fs = true) :
    ∀ keys, keysTry fs keys = none
  | [] => rfl
  | k :: rest => by
      unfold keysTry
      cases hg : jget fs k with
      | none => exact keysTry_none h rest
      | some v =>
        dsimp only
        rw [attemptFloatJ_none (noDig_jget fs h k v hg)]
        by_cases ht : truthyJ v = true
        · rw [if_pos ht]
          exact keysTry_none h rest
        · rw [if_neg ht]
          exact keysTry_none h rest

theorem nodeTry_none {fs : JFields} (h : noDigJF fs = true) : nodeTry fs = none := by
  have hk := keysTry_none h ["price", "lowPrice", "highPrice"]
  simp only [nodeTry]
  by_cases hoff : typeIsOffer (jget fs "@type") = true
  · rw [if_pos hoff]
    have hprice : noDigJ (if truthyJ ((jget fs "price").getD .jnull) = true
        then (jget fs "price").getD .jnull else (jget fs "lowPrice").getD .jnull) = true := by
      split
      · exact noDig_getD h "price"
      · exact noDig_getD h "lowPrice"
    dsimp only
    rw [attemptFloatJ_none hprice]
    by_cases htr : truthyJ (if truthyJ ((jget fs "price").getD .jnull) = true
        then (jget fs "price").getD .jnull else (jget fs "lowPrice").getD .jnull) = true
    · rw [if_pos htr]
      exact hk
    · rw [if_neg htr]
      exact hk
  · rw [if_neg hoff]
    cases hg : jget fs "offers" with
    | none => exact hk
    | some o =>
      cases o with
      | jobj od =>
        have hod : noDigJF od = true := noDig_jget fs h "offers" (.jobj od) hg
        have hprice : noDigJ (if truthyJ ((jget od "price").getD .jnull) = true
            then (jget od "price").getD .jnull else (jget od "lowPrice").getD .jnull) = true := by
          split
          · exact noDig_getD hod "price"
          · exact noDig_getD hod "lowPrice"
        dsimp only
        rw [attemptFloatJ_none hprice]
        by_cases htr : truthyJ (if truthyJ ((jget od "price").getD .jnull) = true
            then (jget od "price").getD .jnull else (jget od "lowPrice").getD .jnull) = true
        · rw [if_pos htr]
          exact hk
        · rw [if_neg htr]
          exact hk
      | jnull => exact hk
      | jbool b => exact hk
      | jnum n => exact hk
      | jstr s => exact hk
      | jarr ys => exact hk

theorem nodesScan_none : ∀ xs : JList, noDigJL xs = true → nodesScan xs = none
  | .nil, _ => rfl
  | .cons v rest, h => by
      simp only [noDigJL, Bool.and_eq_true] at h
      obtain ⟨hv, hr⟩ := h
      cases v with
      | jobj fs =>
        unfold nodesScan
        rw [nodeTry_none hv]
        exact nodesScan_none rest hr
      | jnull => exact nodesScan_none rest hr
      | jbool b => exact nodesScan_none rest hr
      | jnum n => exact nodesScan_none rest hr
      | jstr s => exact nodesScan_none rest hr
      | jarr ys => exact nodesScan_none rest hr

theorem noDig_toNodes : ∀ v : JVal, noDigJ v = true → noDigJL (toNodes v) = true
  | .jarr xs, h => h
  | .jnull, h => by
      show (noDigJ .jnull && noDigJL .nil) = true
      rw [h]
      rfl
  | .jbool b, h => by
      show (noDigJ (.jbool b) && noDigJL .nil) = true
      rw [h]
      rfl
  | .jnum n, h => by
      show (noDigJ (.jnum n) && noDigJL .nil) = true
      rw [h]
      rfl
  | .jstr s, h => by
      show (noDigJ (.jstr s) && noDigJL .nil) = true
      rw [h]
      rfl
  | .jobj fs, h => by
      show (noDigJ (.jobj fs) && noDigJL .nil) = true
      rw [h]
      rfl

theorem jsonld_no_digit : ∀ scripts : List (Option JVal),
    (∀ ov ∈ scripts, noDigO ov = true) → extract_price_from_jsonld scripts = []
  | [], _ => rfl
  | none :: rest, h => jsonld_no_digit rest (fun ov hov => h ov (List.mem_cons_of_mem _ hov))
  | some v :: rest, h => by
      have hv : noDigJ v = true := h (some v) (List.mem_cons_self _ _)
      unfold extract_price_from_jsonld
      rw [nodesScan_none (toNodes v) (noDig_toNodes v hv)]
      exact jsonld_no_digit rest (fun ov hov => h ov (List.mem_cons_of_mem _ hov))

theorem ite_none_some {α : Type} {c : Prop} [Decidable c] {x y : α}
    (h : (if c then none else some x) = some y) : x = y := by
  split at h
  · exact absurd h (by simp)
  · exact Option.some_inj.mp h

theorem ite_else_none {α : Type} {c : Prop} [Decidable c] {x : Option α} {y : α}
    (h : (if c then x else none) = some y) : x = some y := by
  split at h
  · exact h
  · exact absurd h (by simp)

theorem priceLineTail_chars {cs : List Char} {j : ℕ} {g : List Char}
    (h : priceLineTail cs j = some g) : ∀ c ∈ g, c ∈ cs := by
  unfold priceLineTail at h
  obtain ⟨a, -, ha⟩ := List.exists_of_findSome?_eq_some h
  obtain ⟨j2, -, hj2⟩ := List.exists_of_findSome?_eq_some ha
  obtain ⟨b, -, hb⟩ := List.exists_of_findSome?_eq_some hj2
  have hg := ite_none_some hb
  subst hg
  intro c hc
  exact (List.drop_sublist _ _).subset ((List.takeWhile_sublist _).subset hc)

theorem searchPriceLine_chars {cs g : List Char} (h : searchPriceLine cs = some g) :
    ∀ c ∈ g, c ∈ cs := by
  unfold searchPriceLine at h
  obtain ⟨i, -, hi⟩ := List.exists_of_findSome?_eq_some h
  unfold matchPriceLineAt at hi
  obtain ⟨kw, -, hkw⟩ := List.exists_of_findSome?_eq_some hi
  exact priceLineTail_chars (ite_else_none hkw)

theorem dtScan_no_digit : ∀ dts : List (List Char × Option (List Char)),
    (∀ p ∈ dts, ∀ d, p.2 = some d → ∀ c ∈ d, isDigitC c = false) → dtScan dts = none
  | [], _ => rfl
  | (label, dd) :: rest, h => by
      have hrest := fun p hp => h p (List.mem_cons_of_mem _ hp)
      unfold dtScan
      by_cases hkw : hasDomKeyword label = true
      · rw [if_pos hkw]
        cases dd with
        | none => exact dtScan_no_digit rest hrest
        | some d =>
          have hd : ∀ c ∈ d, isDigitC c = false :=
            h (label, some d) (List.mem_cons_self _ _) d rfl
          simp only [clean_price_no_digit hd]
          have hne : ¬(([] : List Char) ≠ []) := by simp
          rw [if_neg hne]
          exact dtScan_no_digit rest hrest
      · rw [if_neg hkw]
        exact dtScan_no_digit rest hrest

theorem trScan_no_digit : ∀ rows : List (List (List Char)),
    (∀ cells ∈ rows, ∀ t ∈ cells, ∀ c ∈ t, isDigitC c = false) → trScan rows = none
  | [], _ => rfl
  | cells :: rest, h => by
      have hrest := fun cs hcs => h cs (List.mem_cons_of_mem _ hcs)
      have hcells := h cells (List.mem_cons_self _ _)
      unfold trScan
      by_cases hlen : 2 ≤ cells.length
      · rw [if_pos hlen]
        by_cases hkw : hasDomKeyword cells.headI = true
        · rw [if_pos hkw]
          have hmem : cells.getD 1 [] ∈ cells := by
            have h1 : 1 < cells.length := by omega
            rw [List.getD_eq_getElem?_getD, List.getElem?_eq_getElem h1]
            exact List.getElem_mem h1
          have hd : ∀ c ∈ cells.getD 1 [], isDigitC c = false := hcells _ hmem
          simp only [clean_price_no_digit hd]
          have hne : ¬(([] : List Char) ≠ []) := by simp
          rw [if_neg hne]
          exact trScan_no_digit rest hrest
        · rw [if_neg hkw]
          exact trScan_no_digit rest hrest
      · rw [if_neg hlen]
        exact trScan_no_digit rest hrest

theorem liScan_no_digit : ∀ lis : List (List Char),
    (∀ t ∈ lis, ∀ c ∈ t, isDigitC c = false) →
    liScan lis = none ∨ liScan lis = some []
  | [], _ => Or.inl rfl
  | txt :: rest, h => by
      unfold liScan
      cases hsp : searchPriceLine txt with
      | none => exact liScan_no_digit rest (fun t ht => h t (List.mem_cons_of_mem _ ht))
      | some g =>
        right
        dsimp only
        have hg : ∀ c ∈ g ++ " €".data, isDigitC c = false := by
          intro c hc
          rcases List.mem_append.mp hc with hc2 | hc2
          · exact h txt (List.mem_cons_self _ _) c (searchPriceLine_chars hsp c hc2)
          · rcases List.mem_cons.mp hc2 with rfl | hc3
            · decide
            · rcases List.mem_cons.mp hc3 with rfl | hc4
              · decide
              · simp at hc4
        rw [clean_price_no_digit hg]

theorem extract_price_dom_no_digit {s : PSoup}
    (hdts : ∀ p ∈ s.dts, ∀ d, p.2 = some d → ∀ c ∈ d, isDigitC c = false)
    (hrows : ∀ cells ∈ s.rows, ∀ t ∈ cells, ∀ c ∈ t, isDigitC c = false)
    (hlis : ∀ t ∈ s.lis, ∀ c ∈ t, isDigitC c = false) :
    extract_price_dom s = [] := by
  unfold extract_price_dom
  rw [dtScan_no_digit s.dts hdts, trScan_no_digit s.rows hrows]
  rcases liScan_no_digit s.lis hlis with hli | hli
  · rw [hli]
  · rw [hli]

theorem lookup_filter_none {α : Type} {l : List (String × α)} {k : String}
    {q : String × α → Bool} (h : List.lookup k l = none) :
    List.lookup k (l.filter q) = none := by
  rw [List.lookup_eq_none_iff] at h ⊢
  intro p hp
  exact h p (List.mem_filter.mp hp).1

/-- C5: on a page whose text content holds no digit character at all — in
particular no currency-shaped token — every strategy of the price cascade
misses, `extract_price` returns the empty string (never `"0"`); the record
built from such a scrape carries `Preis = None`, and
`sanitize_record_for_airtable` then removes the `Preis` field from the
payload entirely, for every allowed-field filter. -/
theorem c5_miss_is_absent (s : PSoup) (page_text : List Char)
    (hscripts : ∀ ov ∈ s.scripts, noDigO ov = true)
    (hdts : ∀ p ∈ s.dts, ∀ d, p.2 = some d → ∀ c ∈ d, isDigitC c = false)
    (hrows : ∀ cells ∈ s.rows, ∀ t ∈ cells, ∀ c ∈ t, isDigitC c = false)
    (hlis : ∀ t ∈ s.lis, ∀ c ∈ t, isDigitC c = false)
    (hpage : ∀ c ∈ page_text, isDigitC c = false) :
    extract_price s page_text = [] ∧
    ∀ (kurz : String) (row : Row) (allowed : List String),
      row.Preis.data = extract_price s page_text →
      pyGet (make_record kurz row) "Preis" = FVal.none_ ∧
      lookupF (sanitize_record_for_airtable (make_record kurz row) allowed) "Preis" =
        none := by
  have hne : ¬(([] : List Char) ≠ []) := by simp
  have hep : extract_price s page_text = [] := by
    simp only [extract_price]
    rw [jsonld_no_digit s.scripts hscripts]
    rw [if_neg hne]
    rw [extract_price_dom_no_digit hdts hrows hlis]
    rw [if_neg hne]
    rw [strict_top_no_digit hpage]
    rw [if_neg hne]
    rw [finditerAny_no_digit hpage]
  refine ⟨hep, ?_⟩
  intro kurz row allowed hrow
  rw [hep] at hrow
  have hparse : parse_price_to_number row.Preis.data = none := by
    rw [hrow]
    rfl
  constructor
  · simp [pyGet, lookupF, make_record, List.lookup, hparse]
  · have hlook : lookupF (make_record kurz row) "Preis" = some FVal.none_ := by
      simp [lookupF, make_record, List.lookup, hparse]
    simp only [sanitize_record_for_airtable]
    rw [hlook]
    dsimp only
    have hc : ((FVal.none_ = FVal.none_ : Bool) || (FVal.none_ = FVal.str "" : Bool)) =
        true := by decide
    rw [if_pos hc]
    split
    · exact lookup_filter_none (lookup_filter_keyFalse (fun v => by simp))
    · exact lookup_filter_keyFalse (fun v => by simp)

/-- C5 witness: a concrete digit-free page, with a price-keyword list item
and a digit-free JSON-LD offer, and a record with the resulting empty price
text. -/
theorem c5_miss_is_absent_witness :
    extract_price
      ⟨[none, some (.jobj (.cons "@type" (.jstr "Offer") (.cons "price" (.jstr "x") .nil)))],
       [("Kaufpreis".data, some "auf Anfrage".data)],
       [["Kaufpreis".data, "anfrage".data]],
       ["Preis: ,".data]⟩ "kein Preis".data = [] ∧
    (pyGet (make_record "k" ⟨"t", "u", "d", "o", "", "ort", "b", "Kaufen"⟩) "Preis" =
        FVal.none_ ∧
     lookupF (sanitize_record_for_airtable
        (make_record "k" ⟨"t", "u", "d", "o", "", "ort", "b", "Kaufen"⟩) ["Titel"])
        "Preis" = none) :=
  ⟨(c5_miss_is_absent _ _ (by decide) (by decide) (by decide) (by decide) (by decide)).1,
   (c5_miss_is_absent
      ⟨[none, some (.jobj (.cons "@type" (.jstr "Offer") (.cons "price" (.jstr "x") .nil)))],
       [("Kaufpreis".data, some "auf Anfrage".data)],
       [["Kaufpreis".data, "anfrage".data]],
       ["Preis: ,".data]⟩ "kein Preis".data
      (by decide) (by decide) (by decide) (by decide) (by decide)).2
     "k" ⟨"t", "u", "d", "o", "", "ort", "b", "Kaufen"⟩ ["Titel"] (by decide)⟩

/-! ### Stop-phrase lemmas: the description filter is newline-safe -/

theorem prefix_append_cons {A B p : List Char} {c : Char} (hc : c ∉ p)
    (h : p <+: A ++ c :: B) : p <+: A := by
  induction A generalizing p with
  | nil =>
    cases p with
    | nil => exact List.nil_prefix
    | cons q qs =>
      obtain ⟨t, ht⟩ := h
      simp only [List.nil_append, List.cons_append] at ht
      injection ht with h1 h2
      subst h1
      exact absurd (List.mem_cons_self _ _) hc
  | cons a A' ih =>
    cases p with
    | nil => exact List.nil_prefix
    | cons q qs =>
      obtain ⟨t, ht⟩ := h
      simp only [List.cons_append] at ht
      injection ht with h1 h2
      subst h1
      have h3 : qs <+: A' := ih (fun hm => hc (List.mem_cons_of_mem _ hm)) ⟨t, h2⟩
      exact List.cons_prefix_cons.mpr ⟨rfl, h3⟩

theorem infix_append_cons {B p : List Char} {c : Char} (hc : c ∉ p) :
    ∀ A : List Char, p <:+: A ++ c :: B → p <:+: A ∨ p <:+: B := by
  intro A
  induction A with
  | nil =>
    intro h
    obtain ⟨s, t, hst⟩ := h
    simp only [List.nil_append] at hst
    cases s with
    | nil =>
      simp only [List.nil_append] at hst
      cases p with
      | nil => exact Or.inl List.nil_infix
      | cons q qs =>
        simp only [List.cons_append] at hst
        injection hst with h1 h2
        subst h1
        exact absurd (List.mem_cons_self _ _) hc
    | cons x s' =>
      simp only [List.cons_append] at hst
      injection hst with h1 h2
      exact Or.inr ⟨s', t, h2⟩
  | cons a A' ih =>
    intro h
    obtain ⟨s, t, hst⟩ := h
    cases s with
    | nil =>
      have hp : p <+: (a :: A') ++ c :: B := ⟨t, by simpa using hst⟩
      exact Or.inl (prefix_append_cons hc hp).isInfix
    | cons x s' =>
      simp only [List.cons_append] at hst
      injection hst with h1 h2
      rcases ih ⟨s', t, h2⟩ with h3 | h3
      · exact Or.inl (List.infix_cons h3)
      · exact Or.inr h3

theorem containsSub_iff_isInfix {l p : List Char} : containsSub l p = true ↔ p <:+: l := by
  unfold containsSub
  rw [List.any_eq_true]
  constructor
  · rintro ⟨i, -, hp⟩
    have h2 : p <+: l.drop i := List.isPrefixOf_iff_prefix.mp hp
    exact h2.isInfix.trans (List.drop_suffix i l).isInfix
  · rintro ⟨s, t, hst⟩
    refine ⟨s.length, ?_, ?_⟩
    · rw [List.mem_range]
      have hpre : s <+: l := ⟨p ++ t, by rw [← List.append_assoc]; exact hst⟩
      have := hpre.length_le
      omega
    · rw [List.isPrefixOf_iff_prefix, ← hst, List.append_assoc, List.drop_left]
      exact List.prefix_append p t

theorem pyLowerL_append (a b : List Char) :
    pyLowerL (a ++ b) = pyLowerL a ++ pyLowerL b := List.map_append _ a b

theorem pyLowerL_cons (c : Char) (l : List Char) :
    pyLowerL (c :: l) = c.toLower :: pyLowerL l := rfl

theorem pyLowerL_take (l : List Char) (n : ℕ) :
    pyLowerL (l.take n) = (pyLowerL l).take n := List.map_take ..

theorem pyLowerL_joinNl : ∀ ls : List (List Char),
    pyLowerL (joinNl ls) = joinNl (ls.map pyLowerL)
  | [] => rfl
  | [l] => rfl
  | l :: l2 :: rest => by
      show pyLowerL (l ++ '\n' :: joinNl (l2 :: rest)) =
        pyLowerL l ++ '\n' :: joinNl ((l2 :: rest).map pyLowerL)
      rw [pyLowerL_append, pyLowerL_cons]
      rw [show Char.toLower '\n' = '\n' from by decide]
      rw [pyLowerL_joinNl (l2 :: rest)]

theorem infix_joinNl {q : List Char} (hne : q ≠ []) (hnl : '\n' ∉ q) :
    ∀ ls : List (List Char), q <:+: joinNl ls → ∃ l ∈ ls, q <:+: l
  | [], h => absurd (List.infix_nil.mp h) hne
  | [l], h => ⟨l, by simp, h⟩
  | l :: l2 :: rest, h => by
      have h2 : q <:+: l ++ '\n' :: joinNl (l2 :: rest) := h
      rcases infix_append_cons hnl l h2 with h3 | h3
      · exact ⟨l, by simp, h3⟩
      · obtain ⟨l', hl', hq'⟩ := infix_joinNl hne hnl (l2 :: rest) h3
        exact ⟨l', List.mem_cons_of_mem _ hl', hq'⟩

theorem containsSub_nil {q : List Char} (h : q ≠ []) : containsSub [] q = false := by
  cases q with
  | nil => exact absurd rfl h
  | cons c qs => rfl

theorem stopHit_cleanDescAux : ∀ ls seen, ∀ t ∈ cleanDescAux ls seen, stopHit t = false := by
  intro ls
  induction ls with
  | nil =>
    intro seen t ht
    simp [cleanDescAux] at ht
  | cons t₀ rest ih =>
    intro seen t ht
    simp only [cleanDescAux] at ht
    by_cases h1 : pynorm t₀ = []
    · rw [if_pos h1] at ht
      exact ih seen t ht
    · rw [if_neg h1] at ht
      by_cases h2 : stopHit (pynorm t₀) = true
      · rw [if_pos h2] at ht
        exact ih seen t ht
      · rw [if_neg h2] at ht
        by_cases h3 : (phoneHit (pynorm t₀) || emailHit (pynorm t₀)) = true
        · rw [if_pos h3] at ht
          exact ih seen t ht
        · rw [if_neg h3] at ht
          by_cases h4 : seen.contains (pynorm t₀) = true
          · rw [if_pos h4] at ht
            exact ih seen t ht
          · rw [if_neg h4] at ht
            rcases List.mem_cons.mp ht with rfl | ht2
            · simpa using h2
            · exact ih (pynorm t₀ :: seen) t ht2

theorem stop_phrases_ok : ∀ q ∈ stopStrings, pyLowerL q.data ≠ [] ∧ '\n' ∉ pyLowerL q.data := by
  decide

theorem descScan_no_stop {p : String} (hp : p ∈ stopStrings) :
    ∀ bs : List DBox, containsSub (pyLowerL (descScan bs)) (pyLowerL p.data) = false
  | [] => containsSub_nil (stop_phrases_ok p hp).1
  | b :: rest => by
      simp only [descScan]
      by_cases hl : cleanDescLines (collectLines b) ≠ []
      · rw [if_pos hl]
        rw [Bool.eq_false_iff]
        intro hcon
        rw [containsSub_iff_isInfix] at hcon
        rw [pyLowerL_take] at hcon
        have hcon2 := hcon.trans (List.take_prefix 6000 _).isInfix
        rw [pyLowerL_joinNl] at hcon2
        obtain ⟨hne, hnl⟩ := stop_phrases_ok p hp
        obtain ⟨lq, hlq, hinf⟩ := infix_joinNl hne hnl _ hcon2
        obtain ⟨l₀, hl₀, rfl⟩ := List.mem_map.mp hlq
        have hsf := stopHit_cleanDescAux (collectLines b) [] l₀ hl₀
        have hsh : stopHit l₀ = true := by
          unfold stopHit
          rw [List.any_eq_true]
          exact ⟨p, hp, containsSub_iff_isInfix.mpr hinf⟩
        rw [hsf] at hsh
        exact Bool.false_ne_true hsh
      · rw [if_neg hl]
        exact descScan_no_stop hp rest

/-- C6: the description extractor's output never contains any configured
stop-phrase as a substring, case-insensitively: every surviving line was
screened by the stop-phrase filter, the lines are joined with a newline no
phrase contains, and truncation only shortens the text. -/
theorem c6_no_stop_phrase (s : DSoup) (p : String) (hp : p ∈ stopStrings) :
    containsSub (pyLowerL (extract_description s)) (pyLowerL p.data) = false :=
  descScan_no_stop hp (candidates s)

/-- C6 witness: a concrete page whose tab panel mixes a privacy-notice line
into real content; the extracted description does not contain
`"Datenschutz"`. -/
theorem c6_no_stop_phrase_witness :
    "Datenschutz" ∈ stopStrings ∧
    containsSub
      (pyLowerL (extract_description
        ⟨some ⟨[⟨false, "Kontakt Datenschutz hier"⟩, ⟨false, "Schönes Haus"⟩], [], none⟩,
         none, []⟩))
      (pyLowerL "Datenschutz".data) = false :=
  ⟨by decide,
   c6_no_stop_phrase
     ⟨some ⟨[⟨false, "Kontakt Datenschutz hier"⟩, ⟨false, "Schönes Haus"⟩], [], none⟩,
      none, []⟩ "Datenschutz" (by decide)⟩

/-! ### Line deduplication (`_clean_desc_lines` keeps distinct entries) -/

theorem cleanDescAux_nodup : ∀ ls seen : List (List Char),
    (cleanDescAux ls seen).Nodup ∧ ∀ t ∈ cleanDescAux ls seen, t ∉ seen := by
  intro ls
  induction ls with
  | nil =>
    intro seen
    refine ⟨List.nodup_nil, ?_⟩
    intro t ht
    simp [cleanDescAux] at ht
  | cons t₀ rest ih =>
    intro seen
    simp only [cleanDescAux]
    by_cases h1 : pynorm t₀ = []
    · rw [if_pos h1]; exact ih seen
    · rw [if_neg h1]
      by_cases h2 : stopHit (pynorm t₀) = true
      · rw [if_pos h2]; exact ih seen
      · rw [if_neg h2]
        by_cases h3 : (phoneHit (pynorm t₀) || emailHit (pynorm t₀)) = true
        · rw [if_pos h3]; exact ih seen
        · rw [if_neg h3]
          by_cases h4 : seen.contains (pynorm t₀) = true
          · rw [if_pos h4]; exact ih seen
          · rw [if_neg h4]
            obtain ⟨hnodup, hnotin⟩ := ih (pynorm t₀ :: seen)
            constructor
            · rw [List.nodup_cons]
              exact ⟨fun hmem => hnotin _ hmem (List.mem_cons_self _ _), hnodup⟩
            · intro t ht
              rcases List.mem_cons.mp ht with rfl | ht2
              · intro hmem
                exact h4 (by simpa using hmem)
              · exact fun hmem => hnotin t ht2 (List.mem_cons_of_mem _ hmem)

theorem descScan_shape : ∀ bs : List DBox, descScan bs = [] ∨
    ∃ b ∈ bs, cleanDescLines (collectLines b) ≠ [] ∧
      descScan bs = (joinNl (cleanDescLines (collectLines b))).take 6000
  | [] => Or.inl rfl
  | b :: rest => by
      simp only [descScan]
      by_cases hl : cleanDescLines (collectLines b) ≠ []
      · rw [if_pos hl]
        exact Or.inr ⟨b, List.mem_cons_self _ _, hl, rfl⟩
      · rw [if_neg hl]
        rcases descScan_shape rest with h | ⟨b', hb', hne, heq⟩
        · exact Or.inl h
        · exact Or.inr ⟨b', List.mem_cons_of_mem _ hb', hne, heq⟩

/-- C7 counterexample: a paragraph may contain a single embedded newline,
which `_norm` preserves (it only collapses runs of two or more whitespace
characters); the joined output then splits into duplicate lines.  Here the
paragraphs `"a"` and `"b\na"` survive the line-level deduplication — they
are distinct entries — but the output `"a\nb\na"` split on newlines repeats
`"a"`. -/
theorem c7_counterexample :
    extract_description ⟨some ⟨[⟨false, "a"⟩, ⟨false, "b\na"⟩], [], none⟩, none, []⟩ =
      "a\nb\na".data ∧
    ¬ (splitNl (extract_description
        ⟨some ⟨[⟨false, "a"⟩, ⟨false, "b\na"⟩], [], none⟩, none, []⟩)).Nodup := by
  decide

/-- C7 (amended): the deduplication of `_clean_desc_lines` acts on whole
collected line entries, not on the newline-split rendering: the cleaned
line list never contains two equal entries, and the extractor's output is
exactly the newline-join of the first candidate's cleaned lines truncated
to 6000 characters (or empty).  Entries may themselves contain embedded
newlines, so the output split on newlines can still repeat a line. -/
theorem c7_line_entry_dedup :
    (∀ ls : List (List Char), (cleanDescLines ls).Nodup) ∧
    (∀ s : DSoup, extract_description s = [] ∨
      ∃ b ∈ candidates s, cleanDescLines (collectLines b) ≠ [] ∧
        extract_description s = (joinNl (cleanDescLines (collectLines b))).take 6000) :=
  ⟨fun ls => (cleanDescAux_nodup ls []).1, fun s => descScan_shape (candidates s)⟩

end Msi

section ScratchChecks

open Msi

example : pyStrip " ab ".data = "ab".data := by decide
example : pynorm "a  b\nc".data = "a b\nc".data := by decide
example : normalize_numstring "479.000,00".data = "479000.00".data := by decide
example : normalize_numstring "479.000".data = "479000".data := by decide
example : normalize_numstring "479000,00".data = "479000.00".data := by decide
example : parseFloatD "479000.00".data = some (Dec.ofInt 479000) := by decide
example : formatEuro (Dec.ofInt 479000) = "479.000 €".data := by decide
example : formatEuro (Dec.ofInt 0) = "0 €".data := by decide
example : Dec.val (Dec.ofInt 479000) = 479000 := by norm_num [Dec.val, Dec.ofInt]

example : searchEurNumber "479.000,00 €".data = some "479.000,00".data := by decide
example : searchEurNumber "479.000 €".data = some "479.000".data := by decide
example : searchEurNumber "479000,00".data = some "00".data := by decide
example : searchEurNumber "1234".data = none := by decide
example : searchEurNumber "abc".data = none := by decide
example : finditerAny "ab 500 cd".data = ["500 ".data] := by decide
example : finditerAny "1234".data = ["123".data] := by decide
example : searchPriceLine "Kaufpreis: 479.000 €".data = some "479.000".data := by decide
example : searchPriceLine "o preis x".data = none := by decide
example : phoneHit "+49 611 123456".data = true := by decide
example : phoneHit "abc".data = false := by decide
example : emailHit "foo@bar.de".data = true := by decide
example : emailHit "foo bar".data = false := by decide
example : verkauftHit "Haus VERKAUFT jetzt".data = true := by decide
example : verkauftHit "unverkauft".data = false := by decide
example : containsCI "unverkauft".data "verkauft".data = true := by decide
example : searchEurNumber "12.345.67".data = some "12.345".data := by decide
example : searchEurNumber "123,456".data = some "123".data := by decide
example : searchEurNumber "47900 €".data = none := by decide
example : searchEurNumber "1.234.567".data = some "1.234.567".data := by decide
example : searchEurNumber "10.00".data = some "10".data := by decide
example : finditerAny "123,456".data = ["123,45".data] := by decide
example : finditerAny "12 EUR".data = ["12 E".data] := by decide
example : finditerAny "7,5 m".data = ["7".data, "5 ".data] := by decide
example : searchPriceLine "preis:,".data = some ",".data := by decide
example : searchPriceLine "miete  : 1.200".data = some "1.200".data := by decide
example : searchPriceLine "xpreis 88".data = some "88".data := by decide
example : searchPriceLine "Warmmiete 950,00 €".data = some "950,00".data := by decide
example : phoneHit "a 12 b".data = false := by decide
example : phoneHit "Baujahr 1985 und 2020".data = false := by decide

example : clean_price_string "200.000 €".data = "200.000 €".data := by decide
example : parse_price_to_number "479.000,00 €".data = some (Dec.ofInt 479000) := by decide
example : parse_price_to_number "479000,00".data = some (Dec.ofInt 0) := by decide
example : pyStrJ (.jstr "100000") = "100000".data := by decide
example : attemptFloatJ (.jstr "100000") = some (Dec.ofInt 100000) := by decide
example : typeIsOffer (some (.jstr "Offer")) = true := by decide
example :
    nodeTry (.cons "@type" (.jstr "Offer") (.cons "price" (.jstr "100000") .nil))
      = some "100.000 €".data := by decide
example :
    nodesScan (.cons (.jobj (.cons "@type" (.jstr "Offer") (.cons "price" (.jstr "100000") .nil))) .nil)
      = some "100.000 €".data := by decide
example :
    extract_price_from_jsonld
      [some (.jobj (.cons "@type" (.jstr "Offer") (.cons "price" (.jstr "100000") .nil)))]
      = "100.000 €".data := by decide
example :
    extract_price_dom ⟨[], [("Kaufpreis".data, some "200.000 €".data)], [], []⟩
      = "200.000 €".data := by decide
example : extract_price ⟨[], [], [], []⟩ "500".data = "500 €".data := by decide
example : extract_price_strict_top "500".data = [] := by decide
example : extract_price ⟨[], [], [], []⟩ "hello".data = [] := by decide

example :
    extract_description
      ⟨some ⟨[⟨false, "a"⟩, ⟨false, "b\na"⟩], [], none⟩, none, []⟩
      = "a\nb\na".data := by decide
example : splitNl "a\nb\na".data = ["a".data, "b".data, "a".data] := by decide
example :
    extract_description
      ⟨some ⟨[⟨false, "Hallo  Welt"⟩, ⟨true, "Beschreibung"⟩, ⟨false, "Datenschutz gilt"⟩,
              ⟨false, "Tel 0611 123456789"⟩, ⟨false, "Hallo  Welt"⟩], ["Punkt eins"], none⟩,
       none, []⟩
      = "Hallo Welt\n• Punkt eins".data := by decide
example : cleanDescLines ["a".data, "a".data, "b".data] = ["a".data, "b".data] := by decide

example :
    sync_category (fun _ => 0) []
      [("r1", [("Kategorie", .str "Kaufen"), ("Objektnummer", .str "4220"), ("Preis", .num (Dec.ofInt 450000))]),
       ("r2", [("Kategorie", .str "Kaufen"), ("Objektnummer", .str "9999")])]
      [[("Kategorie", .str "Kaufen"), ("Objektnummer", .str "4220"), ("Preis", .num (Dec.ofInt 479000))],
       [("Kategorie", .str "Kaufen"), ("Objektnummer", .str "7777")]]
      "Kaufen"
      = ([[("Kategorie", .str "Kaufen"), ("Objektnummer", .str "7777")]],
         [("r1", [("Preis", .num (Dec.ofInt 479000))])],
         ["r2"]) := by decide

example :
    sync_category (fun _ => 0) ["Titel"] []
      [[("Kategorie", .str "Kaufen"), ("Titel", .str "T"), ("Objektnummer", .str "1")]]
      "Kaufen"
      = ([[("Titel", .str "T")]], [], []) := by decide

example : verkauftHit "Haus — verkauft!".data = true := by decide

end ScratchChecks
